import Mathlib

/-!
Shallow embedding of the calculator engine in
`src/components/Calculator.tsx` (the `Calculator` React component).

Modelling choices, fixed once for the whole development:
* JavaScript numbers are modelled as `JSNum := nan | num (q : ℚ)`:
  exact rational arithmetic plus an explicit NaN that propagates through
  the arithmetic operators, exactly as `NaN` does in JavaScript.  The
  engine never divides by zero (the source guards `inputValue !== 0`),
  so infinities are unreachable and are not modelled.
* `parseFloat` is modelled by `jsParseFloat`: longest valid prefix of
  the form sign? digits* ('.' digits*)?, requiring at least one digit,
  returning `nan` otherwise.  (Leading whitespace, `Infinity` and
  exponent notation never occur in the strings this development
  evaluates the parser on and are omitted.)
* `String(x)` (number-to-string) is modelled by `jsRender`: `"NaN"` for
  NaN, and for a rational with a terminating decimal expansion its exact
  minimal decimal string; for a non-terminating expansion (only
  producible by division) the value rounded to 17 fractional digits, a
  stand-in for the shortest-double printing of JavaScript.
* `Number.prototype.toLocaleString("en-US", {maximumFractionDigits: 10})`
  is modelled by `toLocaleString10`: round half-away-from-zero to 10
  fractional digits (ECMA-402 default rounding mode "halfExpand"),
  render minimally, and insert `','` thousands separators in the
  integer part.
* React state: the component's four `useState` cells form the record
  `CalcState`; each handler reads the current state and issues
  `setX` calls whose net effect is the returned record.
* JavaScript string primitives are modelled on `String.data`:
  `slice(0, -1)` is `List.dropLast`, `includes(".")` is list membership,
  `endsWith(c)` is `getLast? = some c`, `length` is `String.length`.
-/

namespace Calculator

/-- A JavaScript number as the engine can produce it: NaN or a finite
value (modelled as an exact rational). -/
inductive JSNum where
  | nan : JSNum
  | num (q : ℚ) : JSNum
deriving DecidableEq

/-- JavaScript `+` on numbers; NaN propagates. -/
def JSNum.add : JSNum → JSNum → JSNum
  | num a, num b => num (a + b)
  | _, _ => nan

/-- JavaScript `-` on numbers; NaN propagates. -/
def JSNum.sub : JSNum → JSNum → JSNum
  | num a, num b => num (a - b)
  | _, _ => nan

/-- JavaScript `*` on numbers; NaN propagates. -/
def JSNum.mul : JSNum → JSNum → JSNum
  | num a, num b => num (a * b)
  | _, _ => nan

/-- JavaScript `/` on numbers; NaN propagates.  The engine only divides
by a value it has checked `!== 0` (or by the literal 100), so the
`b = 0` case is unreachable; it is mapped to `nan`. -/
def JSNum.div : JSNum → JSNum → JSNum
  | num a, num b => if b = 0 then nan else num (a / b)
  | _, _ => nan

/-- The operator alphabet `"+" | "-" | "×" | "÷"` of the source's
`Operation` type (the `null` member is represented by `Option Op` in the
state; every call site of `performOperation` passes a non-null
operator). -/
inductive Op where
  | plus : Op
  | minus : Op
  | times : Op
  | divide : Op
deriving DecidableEq

/-- The `switch (operation)` block that appears verbatim in both
`performOperation` (lines 64-77) and `calculate` (lines 93-106) of the
source: `+`, `-`, `×` directly, `÷` guarded by `inputValue !== 0`,
result `0` when the guard fails.  The JavaScript comparison
`NaN !== 0` is true, hence the guard is on the `JSNum`, not on a
rational. -/
def applyOp (op : Op) (currentValue inputValue : JSNum) : JSNum :=
  match op with
  | .plus => currentValue.add inputValue
  | .minus => currentValue.sub inputValue
  | .times => currentValue.mul inputValue
  | .divide => if inputValue ≠ JSNum.num 0 then currentValue.div inputValue else JSNum.num 0

/-- Modelled from the spec: the operator table of §4.1
(`apply(op, a, b)` with `divide` returning `a / b` when `b ≠ 0` and `0`
otherwise), used to compare the spec's table with the code's switch. -/
def specApply (op : Op) (a b : ℚ) : ℚ :=
  match op with
  | .plus => a + b
  | .minus => a - b
  | .times => a * b
  | .divide => if b ≠ 0 then a / b else 0

/-- The character for a decimal digit `d < 10`. -/
def digitChar (d : ℕ) : Char := Char.ofNat (48 + d)

/-- Little-endian digit characters of `n`, structurally recursive on a
fuel argument so that it evaluates in the kernel. -/
def natDigitsAux : ℕ → ℕ → List Char
  | 0, _ => []
  | fuel + 1, n => if n = 0 then [] else digitChar (n % 10) :: natDigitsAux fuel (n / 10)

/-- Big-endian decimal digit characters of `n` (`"0"` for zero). -/
def natDigits (n : ℕ) : List Char :=
  if n = 0 then ['0'] else (natDigitsAux (n + 1) n).reverse

/-- Numeric value of a big-endian list of digit characters. -/
def digitsVal (cs : List Char) : ℕ :=
  cs.foldl (fun a c => 10 * a + (c.toNat - 48)) 0

/-- Split a character list into its longest digit prefix and the rest. -/
def takeDigits : List Char → List Char × List Char
  | [] => ([], [])
  | c :: cs => if c.isDigit then (c :: (takeDigits cs).1, (takeDigits cs).2) else ([], c :: cs)

/-- Consume an optional leading sign, returning whether it was `'-'`. -/
def parseSign (cs : List Char) : Bool × List Char :=
  match cs with
  | [] => (false, [])
  | c :: t => if c = '-' then (true, t) else if c = '+' then (false, t) else (false, c :: t)

/-- `parseFloat` on a character list: sign? digits* ('.' digits*)?,
longest valid prefix, NaN if no digit was consumed. -/
def parseFloatAux (cs : List Char) : JSNum :=
  let sn := parseSign cs
  let ip := takeDigits sn.2
  let fp : List Char := if ip.2.head? = some '.' then (takeDigits ip.2.tail).1 else []
  if ip.1 = [] ∧ fp = [] then JSNum.nan
  else
    let v : ℚ := (digitsVal ip.1 : ℚ) + (digitsVal fp : ℚ) / 10 ^ fp.length
    JSNum.num (if sn.1 then -v else v)

/-- JavaScript `parseFloat` on a string (see the file header for the
modelled fragment). -/
def jsParseFloat (s : String) : JSNum := parseFloatAux s.data

/-- Search for the least `k` with `d ∣ 10 ^ k`, starting at `k`, with
explicit fuel. -/
def findExpAux (d : ℕ) : ℕ → ℕ → Option ℕ
  | 0, _ => none
  | fuel + 1, k => if d ∣ 10 ^ k then some k else findExpAux d fuel (k + 1)

/-- Least `k ≤ d` with `d ∣ 10 ^ k`, if any: the number of fractional
digits of the terminating decimal expansion of a rational with
denominator `d`.  (When such a `k` exists at all, the least one is at
most `d`.) -/
def findExp (d : ℕ) : Option ℕ := findExpAux d (d + 1) 0

/-- Insert `','` after every third digit, walking a little-endian digit
list; `cnt` counts digits emitted in the current group. -/
def groupAux : ℕ → List Char → List Char
  | _, [] => []
  | cnt, c :: cs =>
    if cnt = 3 ∧ cs ≠ [] then c :: ',' :: groupAux 1 cs else c :: groupAux (cnt + 1) cs

/-- en-US thousands grouping of a big-endian digit list. -/
def groupDigits (ds : List Char) : List Char := (groupAux 1 ds.reverse).reverse

/-- The fractional digit block: `r` rendered left-padded with zeros to
exactly `k` characters. -/
def fracChars (k r : ℕ) : List Char :=
  List.replicate (k - (natDigits r).length) '0' ++ natDigits r

/-- Decimal rendering of the value `m / 10 ^ k`: optional sign, integer
digits (grouped when `grouped` is set), and, when `k ≠ 0`, a point
followed by exactly `k` fractional digits. -/
def renderDecL (grouped : Bool) (m : ℤ) (k : ℕ) : List Char :=
  let n := m.natAbs
  let intDs := if grouped then groupDigits (natDigits (n / 10 ^ k)) else natDigits (n / 10 ^ k)
  let signDs : List Char := if m < 0 then ['-'] else []
  if k = 0 then signDs ++ intDs
  else signDs ++ intDs ++ '.' :: fracChars k (n % 10 ^ k)

/-- Round half away from zero to an integer (ECMA-402 "halfExpand"). -/
def jsRound (q : ℚ) : ℤ :=
  let v : ℕ := (2 * q.num.natAbs + q.den) / (2 * q.den)
  if q.num < 0 then -(v : ℤ) else (v : ℤ)

/-- Render a rational: exact minimal decimal string when the expansion
terminates, otherwise (reachable only through division) rounded to 17
fractional digits. -/
def renderVal (grouped : Bool) (q : ℚ) : String :=
  match findExp q.den with
  | some k => String.mk (renderDecL grouped (q.num * ((10 ^ k / q.den : ℕ) : ℤ)) k)
  | none => String.mk (renderDecL grouped (jsRound (q * 10 ^ 17)) 17)

/-- JavaScript `String(x)` on an engine number. -/
def jsRender : JSNum → String
  | JSNum.nan => "NaN"
  | JSNum.num q => renderVal false q

/-- Round to at most 10 fractional digits (`maximumFractionDigits: 10`). -/
def round10 (q : ℚ) : ℚ := (jsRound (q * 10 ^ 10) : ℚ) / 10 ^ 10

/-- `num.toLocaleString("en-US", { maximumFractionDigits: 10 })`. -/
def toLocaleString10 (q : ℚ) : String := renderVal true (round10 q)

/-- The source's `formatDisplay` (lines 143-153): passthrough when the
string does not parse, ends with `'.'`, or has a decimal point and a
trailing `'0'`; otherwise locale-grouped rendering of the parsed
number. -/
def formatDisplay (value : String) : String :=
  match jsParseFloat value with
  | JSNum.nan => value
  | JSNum.num n =>
    if value.data.getLast? = some '.' then value
    else if '.' ∈ value.data ∧ value.data.getLast? = some '0' then value
    else toLocaleString10 n

/-- The four `useState` cells of the component (lines 8-11). -/
structure CalcState where
  display : String
  previousValue : Option JSNum
  operation : Option Op
  waitingForOperand : Bool
deriving DecidableEq

/-- The initial state of the widget: `display = "0"`, nothing pending. -/
def initState : CalcState := ⟨"0", none, none, false⟩

/-- `inputDigit` (lines 13-20); every call site passes one of `"0"`..`"9"`. -/
def inputDigit (s : CalcState) (digit : String) : CalcState :=
  if s.waitingForOperand then { s with display := digit, waitingForOperand := false }
  else { s with display := if s.display = "0" then digit else s.display ++ digit }

/-- `inputDecimal` (lines 22-31). -/
def inputDecimal (s : CalcState) : CalcState :=
  if s.waitingForOperand then { s with display := "0.", waitingForOperand := false }
  else if '.' ∉ s.display.data then { s with display := s.display ++ "." }
  else s

/-- `clear` (lines 33-38). -/
def clear (_s : CalcState) : CalcState := ⟨"0", none, none, false⟩

/-- `backspace` (lines 40-43): no-op when waiting for an operand,
otherwise `display.length === 1 ? "0" : display.slice(0, -1)`. -/
def backspace (s : CalcState) : CalcState :=
  if s.waitingForOperand then s
  else { s with display := if s.display.length = 1 then "0" else String.mk s.display.data.dropLast }

/-- `toggleSign` (lines 45-48): `String(parseFloat(display) * -1)`. -/
def toggleSign (s : CalcState) : CalcState :=
  { s with display := jsRender ((jsParseFloat s.display).mul (JSNum.num (-1))) }

/-- `inputPercent` (lines 50-53): `String(parseFloat(display) / 100)`. -/
def inputPercent (s : CalcState) : CalcState :=
  { s with display := jsRender ((jsParseFloat s.display).div (JSNum.num 100)) }

/-- `performOperation` (lines 55-85). -/
def performOperation (s : CalcState) (nextOperation : Op) : CalcState :=
  let inputValue := jsParseFloat s.display
  match s.previousValue with
  | none =>
    { s with previousValue := some inputValue, operation := some nextOperation,
             waitingForOperand := true }
  | some currentValue =>
    match s.operation with
    | some op =>
      let result := applyOp op currentValue inputValue
      { display := jsRender result, previousValue := some result,
        operation := some nextOperation, waitingForOperand := true }
    | none => { s with operation := some nextOperation, waitingForOperand := true }

/-- `calculate` (lines 87-112). -/
def calculate (s : CalcState) : CalcState :=
  match s.operation, s.previousValue with
  | some op, some previousValue =>
    let result := applyOp op previousValue (jsParseFloat s.display)
    { display := jsRender result, previousValue := none, operation := none,
      waitingForOperand := true }
  | _, _ => s

/-- The engine's input events, as the button grid and the keyboard
handler dispatch them (a digit button passes the one-character string of
its digit). -/
inductive Ev where
  | digit (d : Fin 10) : Ev
  | dot : Ev
  | clearBtn : Ev
  | back : Ev
  | sign : Ev
  | percent : Ev
  | binop (o : Op) : Ev
  | eq : Ev
deriving DecidableEq

/-- One engine transition. -/
def step (s : CalcState) : Ev → CalcState
  | .digit d => inputDigit s (String.mk [digitChar d.1])
  | .dot => inputDecimal s
  | .clearBtn => clear s
  | .back => backspace s
  | .sign => toggleSign s
  | .percent => inputPercent s
  | .binop o => performOperation s o
  | .eq => calculate s

/-- The state after an event sequence from the freshly mounted widget. -/
def run (es : List Ev) : CalcState := es.foldl step initState


/-- A well-formed operand fragment: nonempty, only digits and at most
one decimal point, and at least one digit.  Every such fragment is
accepted by `jsParseFloat`. -/
def goodCore (w : List Char) : Prop :=
  w ≠ [] ∧ (∀ c ∈ w, c.isDigit = true ∨ c = '.') ∧ w.count '.' ≤ 1 ∧ ∃ c ∈ w, c.isDigit = true

/-- A display string that parses: a well-formed fragment with an
optional leading minus sign. -/
def GoodStr (s : String) : Prop :=
  goodCore s.data ∨ ∃ t, s.data = '-' :: t ∧ goodCore t

/-- The non-parsing display strings the engine can actually produce:
the residues "-", "-." and "." left by backspacing a signed operand,
and the NaN artifacts (strings beginning with 'N'). -/
def JunkStr (s : String) : Prop :=
  s.data = ['-'] ∨ s.data = ['-', '.'] ∨ s.data = ['.'] ∨ s.data.head? = some 'N'

/-- The display invariant the engine maintains. -/
def DisplayOK (s : String) : Prop := GoodStr s ∨ JunkStr s

theorem digitChar_isDigit {d : ℕ} (h : d < 10) : (digitChar d).isDigit = true := by
  interval_cases d <;> decide

theorem digitChar_ne_dot {d : ℕ} (h : d < 10) : digitChar d ≠ '.' := by
  interval_cases d <;> decide

theorem digitChar_ne_minus {d : ℕ} (h : d < 10) : digitChar d ≠ '-' := by
  interval_cases d <;> decide

theorem digitChar_ne_plus {d : ℕ} (h : d < 10) : digitChar d ≠ '+' := by
  interval_cases d <;> decide

theorem digitChar_toNat {d : ℕ} (h : d < 10) : (digitChar d).toNat - 48 = d := by
  interval_cases d <;> decide

theorem digitChar_eq_zero_iff {d : ℕ} (h : d < 10) : digitChar d = '0' ↔ d = 0 := by
  interval_cases d <;> simp <;> decide

theorem natDigitsAux_mem {c : Char} :
    ∀ fuel n, c ∈ natDigitsAux fuel n → ∃ d, d < 10 ∧ c = digitChar d := by
  intro fuel
  induction fuel with
  | zero => intro n h; simp [natDigitsAux] at h
  | succ f ih =>
    intro n h
    rw [natDigitsAux] at h
    by_cases hn : n = 0
    · simp [hn] at h
    · rw [if_neg hn] at h
      rcases List.mem_cons.mp h with h1 | h2
      · exact ⟨n % 10, Nat.mod_lt _ (by norm_num), h1⟩
      · exact ih _ h2

theorem natDigits_ne_nil (n : ℕ) : natDigits n ≠ [] := by
  rw [natDigits]
  by_cases hn : n = 0
  · simp [hn]
  · rw [if_neg hn]
    intro hrev
    rw [List.reverse_eq_nil_iff] at hrev
    rw [natDigitsAux, if_neg hn] at hrev
    exact List.cons_ne_nil _ _ hrev

theorem natDigits_mem {c : Char} {n : ℕ} (h : c ∈ natDigits n) :
    ∃ d, d < 10 ∧ c = digitChar d := by
  rw [natDigits] at h
  by_cases hn : n = 0
  · rw [if_pos hn] at h
    rcases List.mem_singleton.mp h with rfl
    exact ⟨0, by norm_num, rfl⟩
  · rw [if_neg hn, List.mem_reverse] at h
    exact natDigitsAux_mem _ _ h

theorem natDigits_isDigit {c : Char} {n : ℕ} (h : c ∈ natDigits n) : c.isDigit = true := by
  obtain ⟨d, hd, rfl⟩ := natDigits_mem h
  exact digitChar_isDigit hd

theorem foldl_digitsVal (l : List Char) :
    ∀ a : ℕ, l.foldl (fun a c => 10 * a + (c.toNat - 48)) a
      = a * 10 ^ l.length + digitsVal l := by
  induction l with
  | nil => intro a; simp [digitsVal]
  | cons c cs ih =>
    intro a
    rw [List.foldl_cons, ih]
    have h2 : digitsVal (c :: cs) = (10 * 0 + (c.toNat - 48)) * 10 ^ cs.length + digitsVal cs := by
      rw [digitsVal, List.foldl_cons, ih]
    rw [h2, List.length_cons]
    ring

theorem digitsVal_cons (c : Char) (cs : List Char) :
    digitsVal (c :: cs) = (c.toNat - 48) * 10 ^ cs.length + digitsVal cs := by
  rw [digitsVal, List.foldl_cons, foldl_digitsVal]
  simp

theorem digitsVal_append (l m : List Char) :
    digitsVal (l ++ m) = digitsVal l * 10 ^ m.length + digitsVal m := by
  rw [digitsVal, List.foldl_append, foldl_digitsVal]
  rfl

theorem digitsVal_replicate_zero (j : ℕ) (l : List Char) :
    digitsVal (List.replicate j '0' ++ l) = digitsVal l := by
  induction j with
  | zero => simp
  | succ i ih =>
    rw [List.replicate_succ, List.cons_append, digitsVal_cons, ih]
    have h0 : '0'.toNat - 48 = 0 := by decide
    rw [h0]
    simp

theorem digitsVal_natDigitsAux :
    ∀ fuel n, n ≤ fuel → digitsVal ((natDigitsAux fuel n).reverse) = n := by
  intro fuel
  induction fuel with
  | zero => intro n h; interval_cases n; simp [natDigitsAux, digitsVal]
  | succ f ih =>
    intro n h
    rw [natDigitsAux]
    by_cases hn : n = 0
    · simp [hn, digitsVal]
    · rw [if_neg hn, List.reverse_cons, digitsVal_append]
      have h10 : n / 10 ≤ f := by
        have := Nat.div_lt_self (Nat.pos_of_ne_zero hn) (by norm_num : 1 < 10)
        omega
      rw [ih _ h10]
      have : digitsVal [digitChar (n % 10)] = n % 10 := by
        rw [digitsVal_cons]
        simp [digitChar_toNat (Nat.mod_lt n (by norm_num : 0 < 10)), digitsVal]
      rw [this]
      simp
      omega

theorem digitsVal_natDigits (n : ℕ) : digitsVal (natDigits n) = n := by
  rw [natDigits]
  by_cases hn : n = 0
  · simp [hn]; decide
  · rw [if_neg hn]
    exact digitsVal_natDigitsAux _ _ (Nat.le_succ n)

theorem natDigitsAux_length :
    ∀ fuel n k, n ≤ fuel → n < 10 ^ k → (natDigitsAux fuel n).length ≤ k := by
  intro fuel
  induction fuel with
  | zero => intro n k _ _; simp [natDigitsAux]
  | succ f ih =>
    intro n k h hk
    rw [natDigitsAux]
    by_cases hn : n = 0
    · simp [hn]
    · rw [if_neg hn, List.length_cons]
      have hkpos : 0 < k := by
        by_contra hk0
        push_neg at hk0
        interval_cases k
        simp at hk
        omega
      have h10 : n / 10 ≤ f := by
        have := Nat.div_lt_self (Nat.pos_of_ne_zero hn) (by norm_num : 1 < 10)
        omega
      have hdiv : n / 10 < 10 ^ (k - 1) := by
        rw [Nat.div_lt_iff_lt_mul (by norm_num : 0 < 10)]
        calc n < 10 ^ k := hk
        _ = 10 ^ (k - 1) * 10 := by
            rw [← pow_succ]
            congr 1
            omega
      have := ih (n / 10) (k - 1) h10 hdiv
      omega

theorem natDigits_length_le {n k : ℕ} (h : n < 10 ^ k) (hk : 0 < k) :
    (natDigits n).length ≤ k := by
  rw [natDigits]
  by_cases hn : n = 0
  · simp [hn]; omega
  · rw [if_neg hn, List.length_reverse]
    exact natDigitsAux_length _ _ _ (Nat.le_succ n) h

theorem fracChars_length {k r : ℕ} (h : r < 10 ^ k) (hk : 0 < k) :
    (fracChars k r).length = k := by
  rw [fracChars, List.length_append, List.length_replicate]
  have := natDigits_length_le h hk
  omega

theorem fracChars_isDigit {k r : ℕ} {c : Char} (h : c ∈ fracChars k r) : c.isDigit = true := by
  rw [fracChars, List.mem_append] at h
  rcases h with h | h
  · rcases List.eq_of_mem_replicate h with rfl
    decide
  · exact natDigits_isDigit h

theorem digitsVal_fracChars (k r : ℕ) : digitsVal (fracChars k r) = r := by
  rw [fracChars, digitsVal_replicate_zero, digitsVal_natDigits]

theorem takeDigits_nil : takeDigits [] = ([], []) := rfl

theorem takeDigits_cons_not_digit {c : Char} (h : ¬ c.isDigit = true) (cs : List Char) :
    takeDigits (c :: cs) = ([], c :: cs) := by
  rw [takeDigits, if_neg h]

theorem takeDigits_append_digits {A : List Char} (hA : ∀ c ∈ A, c.isDigit = true)
    (B : List Char) :
    takeDigits (A ++ B) = (A ++ (takeDigits B).1, (takeDigits B).2) := by
  induction A with
  | nil => simp
  | cons c cs ih =>
    rw [List.cons_append, takeDigits, if_pos (hA c (List.mem_cons_self c cs))]
    rw [ih (fun x hx => hA x (List.mem_cons_of_mem _ hx))]
    simp

theorem natDigits_getLast?_of_pos {n : ℕ} (h : 0 < n) :
    (natDigits n).getLast? = some (digitChar (n % 10)) := by
  rw [natDigits, if_neg (Nat.pos_iff_ne_zero.mp h), List.getLast?_reverse]
  rw [natDigitsAux, if_neg (Nat.pos_iff_ne_zero.mp h)]
  rfl



theorem findExpAux_sound (d : ℕ) :
    ∀ fuel k0 j, findExpAux d fuel k0 = some j →
      d ∣ 10 ^ j ∧ k0 ≤ j ∧ ∀ i, k0 ≤ i → i < j → ¬ d ∣ 10 ^ i := by
  intro fuel
  induction fuel with
  | zero => intro k0 j h; simp [findExpAux] at h
  | succ f ih =>
    intro k0 j h
    rw [findExpAux] at h
    by_cases hd : d ∣ 10 ^ k0
    · rw [if_pos hd] at h
      obtain rfl : k0 = j := by exact Option.some.inj h
      exact ⟨hd, le_rfl, fun i h1 h2 => absurd h1 (by omega)⟩
    · rw [if_neg hd] at h
      obtain ⟨h1, h2, h3⟩ := ih _ _ h
      refine ⟨h1, by omega, fun i hi1 hi2 => ?_⟩
      by_cases hik : i = k0
      · subst hik; exact hd
      · exact h3 i (by omega) hi2

theorem findExpAux_complete (d : ℕ) :
    ∀ fuel k0 K, k0 ≤ K → K < k0 + fuel → d ∣ 10 ^ K → (findExpAux d fuel k0).isSome := by
  intro fuel
  induction fuel with
  | zero => intro k0 K h1 h2 _; omega
  | succ f ih =>
    intro k0 K h1 h2 hdvd
    rw [findExpAux]
    by_cases hd : d ∣ 10 ^ k0
    · rw [if_pos hd]; rfl
    · rw [if_neg hd]
      have hne : k0 ≠ K := fun h => hd (h ▸ hdvd)
      exact ih (k0 + 1) K (by omega) (by omega) hdvd

theorem dvd_ten_pow_le {d K : ℕ} (hd : 0 < d) (h : d ∣ 10 ^ K) : ∃ j ≤ d, d ∣ 10 ^ j := by
  have h10 : (10 : ℕ) ^ K = 2 ^ K * 5 ^ K := by
    rw [show (10 : ℕ) = 2 * 5 from rfl, mul_pow]
  rw [h10] at h
  obtain ⟨d1, d2, h1, h2, h3⟩ := exists_dvd_and_dvd_of_dvd_mul h
  obtain ⟨a, _, rfl⟩ := (Nat.dvd_prime_pow Nat.prime_two).mp h1
  obtain ⟨b, _, rfl⟩ := (Nat.dvd_prime_pow (by norm_num : Nat.Prime 5)).mp h2
  refine ⟨max a b, ?_, ?_⟩
  · have ha : a < 2 ^ a := Nat.lt_two_pow a
    have hb : b < 5 ^ b := Nat.lt_pow_self (by norm_num) b
    have ha2 : 2 ^ a ≤ d := Nat.le_of_dvd hd ⟨5 ^ b, h3⟩
    have hb2 : 5 ^ b ≤ d := Nat.le_of_dvd hd ⟨2 ^ a, by rw [h3]; ring⟩
    omega
  · rw [h3, show (10 : ℕ) = 2 * 5 from rfl, mul_pow]
    exact Nat.mul_dvd_mul (pow_dvd_pow 2 (le_max_left a b)) (pow_dvd_pow 5 (le_max_right a b))

theorem findExp_spec {d K : ℕ} (hd : 0 < d) (h : d ∣ 10 ^ K) :
    ∃ j, findExp d = some j ∧ d ∣ 10 ^ j ∧ ∀ i < j, ¬ d ∣ 10 ^ i := by
  obtain ⟨K', hK1, hK2⟩ := dvd_ten_pow_le hd h
  have hsome := findExpAux_complete d (d + 1) 0 K' (by omega) (by omega) hK2
  rw [findExp]
  obtain ⟨j, hj⟩ := Option.isSome_iff_exists.mp hsome
  obtain ⟨h1, _, h3⟩ := findExpAux_sound d _ _ _ hj
  exact ⟨j, hj, h1, fun i hi => h3 i (Nat.zero_le i) hi⟩

theorem takeDigits_all_digits {F : List Char} (hF : ∀ c ∈ F, c.isDigit = true) :
    takeDigits F = (F, []) := by
  have := takeDigits_append_digits hF ([] : List Char)
  simpa [takeDigits_nil] using this

theorem parseSign_natDigits_append (x : ℕ) (B : List Char) :
    parseSign (natDigits x ++ B) = (false, natDigits x ++ B) := by
  cases h : natDigits x with
  | nil => exact absurd h (natDigits_ne_nil x)
  | cons a t =>
    have ha : a.isDigit = true := natDigits_isDigit (h ▸ List.mem_cons_self a t)
    have h1 : a ≠ '-' := by intro he; rw [he] at ha; simp at ha
    have h2 : a ≠ '+' := by intro he; rw [he] at ha; simp at ha
    rw [List.cons_append, parseSign, if_neg h1, if_neg h2]

theorem rat_div_mod_cast (n k : ℕ) :
    ((n / 10 ^ k : ℕ) : ℚ) + ((n % 10 ^ k : ℕ) : ℚ) / 10 ^ k = (n : ℚ) / 10 ^ k := by
  have hmod := Nat.div_add_mod n (10 ^ k)
  have hcast : ((10 ^ k * (n / 10 ^ k) + n % 10 ^ k : ℕ) : ℚ) = (n : ℚ) := by rw [hmod]
  push_cast at hcast
  have h10 : (10 : ℚ) ^ k ≠ 0 := by positivity
  field_simp
  linarith

theorem parseFloatAux_core (n k : ℕ) :
    parseFloatAux (natDigits (n / 10 ^ k) ++
      (if k = 0 then [] else '.' :: fracChars k (n % 10 ^ k))) =
    JSNum.num ((n : ℚ) / 10 ^ k) := by
  have hA : ∀ c ∈ natDigits (n / 10 ^ k), c.isDigit = true := fun c hc => natDigits_isDigit hc
  have hAne : natDigits (n / 10 ^ k) ≠ [] := natDigits_ne_nil _
  by_cases hk : k = 0
  · subst hk
    rw [if_pos rfl, List.append_nil]
    simp only [pow_zero, Nat.div_one] at hA hAne ⊢
    rw [parseFloatAux]
    have hps := parseSign_natDigits_append n []
    rw [List.append_nil] at hps
    rw [hps]
    simp only
    rw [takeDigits_all_digits hA]
    have hnil : digitsVal [] = 0 := rfl
    simp [hAne, digitsVal_natDigits, hnil]
  · rw [if_neg hk]
    rw [parseFloatAux]
    rw [parseSign_natDigits_append]
    simp only
    have hdot : ¬ ('.' : Char).isDigit = true := by decide
    rw [takeDigits_append_digits hA, takeDigits_cons_not_digit hdot]
    simp only [List.head?_cons, List.tail_cons, List.append_nil]
    rw [takeDigits_all_digits (fun c hc => fracChars_isDigit hc)]
    have hr : n % 10 ^ k < 10 ^ k := Nat.mod_lt n (by positivity)
    simp [hAne, digitsVal_natDigits, digitsVal_fracChars,
      fracChars_length hr (Nat.pos_of_ne_zero hk), rat_div_mod_cast]

theorem parseSign_core (n k : ℕ) :
    parseSign (natDigits (n / 10 ^ k) ++
      (if k = 0 then [] else '.' :: fracChars k (n % 10 ^ k))) =
    (false, natDigits (n / 10 ^ k) ++
      (if k = 0 then [] else '.' :: fracChars k (n % 10 ^ k))) :=
  parseSign_natDigits_append _ _

theorem parseFloatAux_neg_of {core : List Char} (h : parseSign core = (false, core)) {v : ℚ}
    (hv : parseFloatAux core = JSNum.num v) :
    parseFloatAux ('-' :: core) = JSNum.num (-v) := by
  rw [parseFloatAux] at hv ⊢
  rw [h] at hv
  rw [show parseSign ('-' :: core) = (true, core) from by rw [parseSign]; simp]
  simp only at hv ⊢
  by_cases hg : (takeDigits core).1 = [] ∧
      (if (takeDigits core).2.head? = some '.' then (takeDigits (takeDigits core).2.tail).1
       else []) = []
  · rw [if_pos hg] at hv; exact absurd hv (by simp)
  · rw [if_neg hg] at hv ⊢
    simp only [if_true]
    rw [if_neg Bool.false_ne_true] at hv
    rw [JSNum.num.injEq] at hv
    rw [hv]

theorem renderDecL_eq_sign_core (m : ℤ) (k : ℕ) :
    renderDecL false m k = (if m < 0 then ['-'] else []) ++
      (natDigits (m.natAbs / 10 ^ k) ++
        (if k = 0 then [] else '.' :: fracChars k (m.natAbs % 10 ^ k))) := by
  rw [renderDecL]
  by_cases hk : k = 0
  · subst hk; simp
  · rw [if_neg hk, if_neg hk]
    simp

theorem parseFloatAux_renderDecL (m : ℤ) (k : ℕ) :
    parseFloatAux (renderDecL false m k) = JSNum.num ((m : ℚ) / 10 ^ k) := by
  rw [renderDecL_eq_sign_core]
  by_cases hm : m < 0
  · rw [if_pos hm, List.singleton_append]
    have hcast : ((m.natAbs : ℕ) : ℚ) = -(m : ℚ) := by
      rw [Int.cast_natAbs]
      simp [abs_of_neg (by exact_mod_cast hm : (m : ℚ) < 0)]
    rw [parseFloatAux_neg_of (parseSign_core m.natAbs k) (parseFloatAux_core m.natAbs k)]
    rw [hcast]
    ring_nf
  · rw [if_neg hm, List.nil_append]
    rw [parseFloatAux_core]
    have hcast : ((m.natAbs : ℕ) : ℚ) = (m : ℚ) := by
      rw [Int.cast_natAbs]
      simp [abs_of_nonneg (by exact_mod_cast not_lt.mp hm : (0:ℚ) ≤ (m : ℚ))]
    rw [hcast]



theorem digitsVal_nil : digitsVal [] = 0 := rfl

theorem den_dvd_of_eq_div {v : ℚ} {z : ℤ} {w : ℕ}
    (h : v = (z : ℚ) / (w : ℚ)) : v.den ∣ w := by
  have h2 : v = Rat.divInt z (w : ℤ) := by
    rw [Rat.divInt_eq_div, h]
    norm_num
  have h3 := Rat.den_dvd z (w : ℤ)
  rw [← h2] at h3
  exact_mod_cast h3

theorem cast_pow_div_eq {d k : ℕ} (hd : 0 < d) (hdvd : d ∣ 10 ^ k) :
    ((10 ^ k / d : ℕ) : ℚ) = (10 : ℚ) ^ k / (d : ℚ) := by
  rw [Nat.cast_div hdvd (by exact_mod_cast hd.ne')]
  norm_num

theorem rat_num_eq_mul_den (q : ℚ) : (q.num : ℚ) = q * (q.den : ℚ) := by
  have hd : ((q.den : ℚ)) ≠ 0 := by
    exact_mod_cast q.den_pos.ne'
  have h := Rat.num_div_den q
  rw [div_eq_iff hd] at h
  exact h

theorem renderVal_value {q : ℚ} {k : ℕ} (hdvd : q.den ∣ 10 ^ k) :
    ((q.num * ((10 ^ k / q.den : ℕ) : ℤ) : ℤ) : ℚ) / 10 ^ k = q := by
  have hd : 0 < q.den := q.den_pos
  have h10 : (10 : ℚ) ^ k ≠ 0 := by positivity
  have hdq : (q.den : ℚ) ≠ 0 := by exact_mod_cast hd.ne'
  rw [Int.cast_mul, Int.cast_natCast, cast_pow_div_eq hd hdvd, rat_num_eq_mul_den q]
  field_simp
  rw [rat_num_eq_mul_den q]
  ring

theorem jsParseFloat_mk (L : List Char) : jsParseFloat (String.mk L) = parseFloatAux L := rfl

theorem jsParseFloat_renderVal {q : ℚ} {K : ℕ} (h : q.den ∣ 10 ^ K) :
    jsParseFloat (renderVal false q) = JSNum.num q := by
  obtain ⟨j, hj, hdvd, _⟩ := findExp_spec q.den_pos h
  rw [renderVal, hj, jsParseFloat_mk, parseFloatAux_renderDecL]
  rw [renderVal_value hdvd]

theorem aux_den_dvd (a b l : ℕ) : ((a : ℚ) + (b : ℚ) / 10 ^ l).den ∣ 10 ^ l := by
  apply den_dvd_of_eq_div (z := ((a * 10 ^ l + b : ℕ) : ℤ)) (w := 10 ^ l)
  have h10 : ((10 : ℚ)) ^ l ≠ 0 := by positivity
  push_cast
  field_simp

theorem rat_neg_den (x : ℚ) : (-x).den = x.den := by simp

theorem jsParseFloat_den_dvd {s : String} {v : ℚ} (h : jsParseFloat s = JSNum.num v) :
    ∃ k, v.den ∣ 10 ^ k := by
  rw [jsParseFloat, parseFloatAux] at h
  simp only at h
  by_cases hdot : (takeDigits (parseSign s.data).2).2.head? = some '.'
  · simp only [if_pos hdot] at h
    by_cases hg : (takeDigits (parseSign s.data).2).1 = [] ∧
        (takeDigits (takeDigits (parseSign s.data).2).2.tail).1 = []
    · simp only [if_pos hg] at h
      exact absurd h (by simp)
    · simp only [if_neg hg, JSNum.num.injEq] at h
      refine ⟨(takeDigits (takeDigits (parseSign s.data).2).2.tail).1.length, ?_⟩
      by_cases hs : (parseSign s.data).1 = true
      · simp only [if_pos hs] at h
        rw [← h, rat_neg_den]
        exact aux_den_dvd _ _ _
      · simp only [if_neg hs] at h
        rw [← h]
        exact aux_den_dvd _ _ _
  · simp only [if_neg hdot] at h
    by_cases hg : (takeDigits (parseSign s.data).2).1 = []
    · rw [if_pos ⟨hg, trivial⟩] at h
      exact absurd h (by simp)
    · rw [if_neg (fun hand => hg hand.1), JSNum.num.injEq] at h
      refine ⟨([] : List Char).length, ?_⟩
      by_cases hs : (parseSign s.data).1 = true
      · simp only [if_pos hs] at h
        rw [← h, rat_neg_den]
        exact aux_den_dvd _ _ _
      · simp only [if_neg hs] at h
        rw [← h]
        exact aux_den_dvd _ _ _

theorem renderVal_den_one {q : ℚ} (h : q.den = 1) :
    renderVal false q = String.mk (renderDecL false q.num 0) := by
  rw [renderVal, h, show findExp 1 = some 0 from by decide]
  norm_num

theorem jsParseFloat_single_digit {d : ℕ} (hd : d < 10) :
    jsParseFloat (String.mk [digitChar d]) = JSNum.num (d : ℚ) := by
  rw [jsParseFloat_mk, parseFloatAux]
  have h1 : parseSign [digitChar d] = (false, [digitChar d]) := by
    rw [parseSign, if_neg (digitChar_ne_minus hd), if_neg (digitChar_ne_plus hd)]
  rw [h1]
  simp only
  rw [takeDigits_all_digits (by
    intro c hc
    rcases List.mem_singleton.mp hc with rfl
    exact digitChar_isDigit hd)]
  have h2 : digitsVal [digitChar d] = d := by
    rw [digitsVal_cons, digitsVal_nil, digitChar_toNat hd]
    simp
  simp [h2, digitsVal_nil]



theorem jsRender_num (q : ℚ) : jsRender (JSNum.num q) = renderVal false q := rfl

theorem jsRender_den_one {q : ℚ} (h : q.den = 1) :
    jsRender (JSNum.num q) = String.mk (renderDecL false q.num 0) := by
  rw [jsRender_num, renderVal_den_one h]

theorem jsRender_zero : jsRender (JSNum.num 0) = "0" := by
  rw [jsRender_den_one (by simp), show ((0:ℚ)).num = 0 from by simp]
  decide

theorem jsRender_five : jsRender (JSNum.num 5) = "5" := by
  rw [jsRender_den_one (Rat.den_ofNat 5), Rat.num_ofNat 5]
  decide

theorem jsRender_nine : jsRender (JSNum.num 9) = "9" := by
  rw [jsRender_den_one (Rat.den_ofNat 9), Rat.num_ofNat 9]
  decide

theorem jsParseFloat_lit_zero : jsParseFloat "0" = JSNum.num 0 := by
  rw [show ("0" : String) = String.mk [digitChar 0] from by decide,
    jsParseFloat_single_digit (by norm_num)]
  norm_num

theorem jsParseFloat_lit_two : jsParseFloat "2" = JSNum.num 2 := by
  rw [show ("2" : String) = String.mk [digitChar 2] from by decide,
    jsParseFloat_single_digit (by norm_num)]
  norm_num

theorem jsParseFloat_lit_three : jsParseFloat "3" = JSNum.num 3 := by
  rw [show ("3" : String) = String.mk [digitChar 3] from by decide,
    jsParseFloat_single_digit (by norm_num)]
  norm_num

theorem jsParseFloat_lit_four : jsParseFloat "4" = JSNum.num 4 := by
  rw [show ("4" : String) = String.mk [digitChar 4] from by decide,
    jsParseFloat_single_digit (by norm_num)]
  norm_num

theorem jsParseFloat_lit_five : jsParseFloat "5" = JSNum.num 5 := by
  rw [show ("5" : String) = String.mk [digitChar 5] from by decide,
    jsParseFloat_single_digit (by norm_num)]
  norm_num

theorem inputDigit_of_waiting {s : CalcState} (h : s.waitingForOperand = true) (dg : String) :
    inputDigit s dg = { s with display := dg, waitingForOperand := false } := by
  rw [inputDigit, if_pos h]

theorem inputDigit_of_not_waiting {s : CalcState} (h : s.waitingForOperand = false) (dg : String) :
    inputDigit s dg = { s with display := if s.display = "0" then dg else s.display ++ dg } := by
  rw [inputDigit, if_neg (by rw [h]; simp)]

theorem inputDecimal_of_waiting {s : CalcState} (h : s.waitingForOperand = true) :
    inputDecimal s = { s with display := "0.", waitingForOperand := false } := by
  rw [inputDecimal, if_pos h]

theorem inputDecimal_append {s : CalcState} (h : s.waitingForOperand = false)
    (hd : '.' ∉ s.display.data) :
    inputDecimal s = { s with display := s.display ++ "." } := by
  rw [inputDecimal, if_neg (by rw [h]; simp), if_pos hd]

theorem inputDecimal_of_mem {s : CalcState} (h : s.waitingForOperand = false)
    (hd : '.' ∈ s.display.data) : inputDecimal s = s := by
  rw [inputDecimal, if_neg (by rw [h]; simp), if_neg (by simpa using hd)]

theorem backspace_of_waiting {s : CalcState} (h : s.waitingForOperand = true) :
    backspace s = s := by
  rw [backspace, if_pos h]

theorem backspace_of_not_waiting {s : CalcState} (h : s.waitingForOperand = false) :
    backspace s = { s with display := if s.display.length = 1 then "0" else String.mk s.display.data.dropLast } := by
  rw [backspace, if_neg (by rw [h]; simp)]

theorem performOperation_of_none {s : CalcState} (h : s.previousValue = none) (next : Op) :
    performOperation s next = { s with previousValue := some (jsParseFloat s.display), operation := some next, waitingForOperand := true } := by
  obtain ⟨d, pv, o, w⟩ := s
  simp only at h
  subst h
  rfl

theorem performOperation_chain {s : CalcState} {cv : JSNum} {op : Op}
    (h1 : s.previousValue = some cv) (h2 : s.operation = some op) (next : Op) :
    performOperation s next = ⟨jsRender (applyOp op cv (jsParseFloat s.display)),
      some (applyOp op cv (jsParseFloat s.display)), some next, true⟩ := by
  obtain ⟨d, pv, o, w⟩ := s
  simp only at h1 h2
  subst h1
  subst h2
  rfl

theorem performOperation_of_opNone {s : CalcState} {cv : JSNum}
    (h1 : s.previousValue = some cv) (h2 : s.operation = none) (next : Op) :
    performOperation s next = { s with operation := some next, waitingForOperand := true } := by
  obtain ⟨d, pv, o, w⟩ := s
  simp only at h1 h2
  subst h1
  subst h2
  rfl

theorem calculate_go {s : CalcState} {op : Op} {pv : JSNum}
    (h1 : s.operation = some op) (h2 : s.previousValue = some pv) :
    calculate s = ⟨jsRender (applyOp op pv (jsParseFloat s.display)), none, none, true⟩ := by
  obtain ⟨d, pvf, o, w⟩ := s
  simp only at h1 h2
  subst h1
  subst h2
  rfl

/-- C6: the two silent no-op guards: `calculate` leaves the state
untouched when no operation or no previous value is pending, and
`backspace` leaves it untouched while awaiting an operand; neither
signals any error. -/
theorem noop_guards (s : CalcState) :
    (s.operation = none ∨ s.previousValue = none → calculate s = s) ∧
    (s.waitingForOperand = true → backspace s = s) := by
  obtain ⟨d, pv, op, w⟩ := s
  constructor
  · intro h
    simp only at h
    cases op with
    | none => cases pv <;> rfl
    | some o =>
      cases pv with
      | none => rfl
      | some p =>
        rcases h with h | h <;> simp at h
  · intro hw
    simp only at hw
    subst hw
    rfl

/-- C6 witness: at a concrete state with a pending-operand flag and no
pending operation, both guards fire and the state is unchanged. -/
theorem noop_guards_witness :
    calculate ⟨"0", none, none, true⟩ = ⟨"0", none, none, true⟩ ∧
    backspace ⟨"0", none, none, true⟩ = ⟨"0", none, none, true⟩ :=
  ⟨(noop_guards ⟨"0", none, none, true⟩).1 (Or.inl rfl),
   (noop_guards ⟨"0", none, none, true⟩).2 rfl⟩

/-- C7: `inputDecimal` is idempotent: a second consecutive press changes
nothing, in particular the display. -/
theorem inputDecimal_idem (s : CalcState) :
    inputDecimal (inputDecimal s) = inputDecimal s := by
  cases hw : s.waitingForOperand with
  | true =>
    rw [inputDecimal_of_waiting hw]
    exact inputDecimal_of_mem rfl (show ('.' : Char) ∈ ("0." : String).data from by decide)
  | false =>
    by_cases hdot : '.' ∈ s.display.data
    · rw [inputDecimal_of_mem hw hdot, inputDecimal_of_mem hw hdot]
    · rw [inputDecimal_append hw hdot]
      have hmem : '.' ∈ (s.display ++ ".").data := by
        rw [String.data_append]
        simp
      exact inputDecimal_of_mem hw hmem



theorem applyOp_divide_zero (a : JSNum) : applyOp Op.divide a (JSNum.num 0) = JSNum.num 0 := by
  rw [applyOp]
  rw [if_neg (fun h => h rfl)]

theorem run_c2_display :
    (run [Ev.digit 2, Ev.binop Op.plus, Ev.digit 3, Ev.binop Op.plus, Ev.digit 4,
      Ev.eq]).display = "9" := by
  have e1 : step initState (Ev.digit 2) = ⟨"2", none, none, false⟩ := by decide
  have e2 : step (⟨"2", none, none, false⟩ : CalcState) (Ev.binop Op.plus)
      = ⟨"2", some (JSNum.num 2), some Op.plus, true⟩ := by
    simp only [step]
    rw [performOperation_of_none rfl]
    show (⟨"2", some (jsParseFloat "2"), some Op.plus, true⟩ : CalcState) = _
    rw [jsParseFloat_lit_two]
  have e3 : step (⟨"2", some (JSNum.num 2), some Op.plus, true⟩ : CalcState) (Ev.digit 3)
      = ⟨"3", some (JSNum.num 2), some Op.plus, false⟩ := by
    simp only [step]
    rw [inputDigit_of_waiting rfl]
    show (⟨String.mk [digitChar 3], some (JSNum.num 2), some Op.plus, false⟩ : CalcState) = _
    rw [show String.mk [digitChar 3] = "3" from by decide]
  have e4 : step (⟨"3", some (JSNum.num 2), some Op.plus, false⟩ : CalcState) (Ev.binop Op.plus)
      = ⟨jsRender (JSNum.num 5), some (JSNum.num 5), some Op.plus, true⟩ := by
    simp only [step]
    rw [performOperation_chain rfl rfl]
    show (⟨jsRender (applyOp Op.plus (JSNum.num 2) (jsParseFloat "3")),
      some (applyOp Op.plus (JSNum.num 2) (jsParseFloat "3")), some Op.plus, true⟩ : CalcState) = _
    rw [jsParseFloat_lit_three,
      show applyOp Op.plus (JSNum.num 2) (JSNum.num 3) = JSNum.num (2 + 3) from rfl,
      show (2 + 3 : ℚ) = 5 from by norm_num]
  have e5 : step (⟨jsRender (JSNum.num 5), some (JSNum.num 5), some Op.plus, true⟩ : CalcState)
      (Ev.digit 4) = ⟨"4", some (JSNum.num 5), some Op.plus, false⟩ := by
    simp only [step]
    rw [inputDigit_of_waiting rfl]
    show (⟨String.mk [digitChar 4], some (JSNum.num 5), some Op.plus, false⟩ : CalcState) = _
    rw [show String.mk [digitChar 4] = "4" from by decide]
  have e6 : step (⟨"4", some (JSNum.num 5), some Op.plus, false⟩ : CalcState) Ev.eq
      = ⟨jsRender (JSNum.num 9), none, none, true⟩ := by
    simp only [step]
    rw [calculate_go rfl rfl]
    show (⟨jsRender (applyOp Op.plus (JSNum.num 5) (jsParseFloat "4")), none, none, true⟩ :
      CalcState) = _
    rw [jsParseFloat_lit_four,
      show applyOp Op.plus (JSNum.num 5) (JSNum.num 4) = JSNum.num (5 + 4) from rfl,
      show (5 + 4 : ℚ) = 9 from by norm_num]
  rw [run]
  simp only [List.foldl_cons, List.foldl_nil]
  rw [e1, e2, e3, e4, e5, e6]
  rw [show (⟨jsRender (JSNum.num 9), none, none, true⟩ : CalcState).display
    = jsRender (JSNum.num 9) from rfl]
  exact jsRender_nine

theorem run_c3_display :
    (run [Ev.digit 5, Ev.binop Op.divide, Ev.digit 0, Ev.eq]).display = "0" := by
  have e1 : step initState (Ev.digit 5) = ⟨"5", none, none, false⟩ := by decide
  have e2 : step (⟨"5", none, none, false⟩ : CalcState) (Ev.binop Op.divide)
      = ⟨"5", some (JSNum.num 5), some Op.divide, true⟩ := by
    simp only [step]
    rw [performOperation_of_none rfl]
    show (⟨"5", some (jsParseFloat "5"), some Op.divide, true⟩ : CalcState) = _
    rw [jsParseFloat_lit_five]
  have e3 : step (⟨"5", some (JSNum.num 5), some Op.divide, true⟩ : CalcState) (Ev.digit 0)
      = ⟨"0", some (JSNum.num 5), some Op.divide, false⟩ := by
    simp only [step]
    rw [inputDigit_of_waiting rfl]
    show (⟨String.mk [digitChar 0], some (JSNum.num 5), some Op.divide, false⟩ : CalcState) = _
    rw [show String.mk [digitChar 0] = "0" from by decide]
  have e4 : step (⟨"0", some (JSNum.num 5), some Op.divide, false⟩ : CalcState) Ev.eq
      = ⟨jsRender (JSNum.num 0), none, none, true⟩ := by
    simp only [step]
    rw [calculate_go rfl rfl]
    show (⟨jsRender (applyOp Op.divide (JSNum.num 5) (jsParseFloat "0")), none, none, true⟩ :
      CalcState) = _
    rw [jsParseFloat_lit_zero, applyOp_divide_zero]
  rw [run]
  simp only [List.foldl_cons, List.foldl_nil]
  rw [e1, e2, e3, e4]
  rw [show (⟨jsRender (JSNum.num 0), none, none, true⟩ : CalcState).display
    = jsRender (JSNum.num 0) from rfl]
  exact jsRender_zero

theorem inputDigit_pv_op (s : CalcState) (dg : String) :
    (inputDigit s dg).previousValue = s.previousValue ∧
    (inputDigit s dg).operation = s.operation := by
  rw [inputDigit]
  split
  · exact ⟨rfl, rfl⟩
  · exact ⟨rfl, rfl⟩

theorem inputDecimal_pv_op (s : CalcState) :
    (inputDecimal s).previousValue = s.previousValue ∧
    (inputDecimal s).operation = s.operation := by
  rw [inputDecimal]
  split
  · exact ⟨rfl, rfl⟩
  · split
    · exact ⟨rfl, rfl⟩
    · exact ⟨rfl, rfl⟩

theorem entry_preserves :
    ∀ es : List Ev, (∀ e ∈ es, e = Ev.dot ∨ ∃ d, e = Ev.digit d) →
      ∀ s : CalcState, (es.foldl step s).previousValue = s.previousValue ∧
        (es.foldl step s).operation = s.operation := by
  intro es
  induction es with
  | nil => intro _ s; exact ⟨rfl, rfl⟩
  | cons e es ih =>
    intro he s
    rw [List.foldl_cons]
    obtain ⟨h1, h2⟩ := ih (fun x hx => he x (List.mem_cons_of_mem _ hx)) (step s e)
    have hstep : (step s e).previousValue = s.previousValue ∧
        (step s e).operation = s.operation := by
      rcases he e (List.mem_cons_self e es) with rfl | ⟨d, rfl⟩
      · exact inputDecimal_pv_op s
      · exact inputDigit_pv_op s _
    exact ⟨h1.trans hstep.1, h2.trans hstep.2⟩

/-- C1: from any state with no pending left operand, pressing an
operator, entering the second operand by any sequence of digit or
decimal-point presses, and pressing equals leaves on the display the
rendering of `apply(op, a, b)` where `a` is the parse of the display at
the operator press and `b` the parse of the entered operand; and on
finite values the code's operator switch agrees with the spec's
operator table (divide returning `a / b` exactly when `b ≠ 0`). -/
theorem operator_entry_calculate (op : Op) (s : CalcState) (h : s.previousValue = none)
    (es : List Ev) (he : ∀ e ∈ es, e = Ev.dot ∨ ∃ d, e = Ev.digit d) :
    (calculate (es.foldl step (performOperation s op))).display
      = jsRender (applyOp op (jsParseFloat s.display)
          (jsParseFloat ((es.foldl step (performOperation s op)).display))) ∧
    ∀ a b : ℚ, applyOp op (JSNum.num a) (JSNum.num b) = JSNum.num (specApply op a b) := by
  constructor
  · have h1 : (performOperation s op).previousValue = some (jsParseFloat s.display) := by
      rw [performOperation_of_none h]
    have h2 : (performOperation s op).operation = some op := by
      rw [performOperation_of_none h]
    obtain ⟨hp, ho⟩ := entry_preserves es he (performOperation s op)
    rw [calculate_go (ho.trans h2) (hp.trans h1)]
  · intro a b
    cases op with
    | plus => rfl
    | minus => rfl
    | times => rfl
    | divide =>
      by_cases hb : b = 0
      · subst hb
        rw [applyOp_divide_zero, specApply, if_neg (fun hh => hh rfl)]
      · rw [applyOp, if_pos (show JSNum.num b ≠ JSNum.num 0 from
          fun hc => hb (JSNum.num.inj hc))]
        rw [JSNum.div, if_neg hb, specApply, if_pos hb]

/-- C1 witness: entering 3 after plus from the initial state. -/
theorem operator_entry_calculate_witness :
    (calculate ([Ev.digit 3].foldl step (performOperation initState Op.plus))).display
      = jsRender (applyOp Op.plus (jsParseFloat initState.display)
          (jsParseFloat (([Ev.digit 3].foldl step (performOperation initState Op.plus)).display))) ∧
    ∀ a b : ℚ, applyOp Op.plus (JSNum.num a) (JSNum.num b) = JSNum.num (specApply Op.plus a b) :=
  operator_entry_calculate Op.plus initState rfl [Ev.digit 3] (by
    intro e hee
    rcases List.mem_singleton.mp hee with rfl
    exact Or.inr ⟨3, rfl⟩)

/-- C2: with both a previous value and an operation pending, the next
operator press folds the pending operation into the result (display and
previous value both become that result, left-to-right, no precedence);
and the event sequence 2, +, 3, +, 4, = ends with display "9". -/
theorem chained_operator_press (s : CalcState) {pv : JSNum} {op : Op} (next : Op)
    (h1 : s.previousValue = some pv) (h2 : s.operation = some op) :
    performOperation s next = ⟨jsRender (applyOp op pv (jsParseFloat s.display)),
      some (applyOp op pv (jsParseFloat s.display)), some next, true⟩ ∧
    (run [Ev.digit 2, Ev.binop Op.plus, Ev.digit 3, Ev.binop Op.plus, Ev.digit 4,
      Ev.eq]).display = "9" :=
  ⟨performOperation_chain h1 h2 next, run_c2_display⟩

/-- C2 witness: chaining at the concrete state reached after 2, +, 3. -/
theorem chained_operator_press_witness :
    performOperation ⟨"3", some (JSNum.num 2), some Op.plus, false⟩ Op.plus
      = ⟨jsRender (applyOp Op.plus (JSNum.num 2) (jsParseFloat "3")),
        some (applyOp Op.plus (JSNum.num 2) (jsParseFloat "3")), some Op.plus, true⟩ ∧
    (run [Ev.digit 2, Ev.binop Op.plus, Ev.digit 3, Ev.binop Op.plus, Ev.digit 4,
      Ev.eq]).display = "9" :=
  chained_operator_press ⟨"3", some (JSNum.num 2), some Op.plus, false⟩ Op.plus rfl rfl

/-- C3: division by zero is defined as 0 in the operator switch (used
both by performOperation chaining and by calculate), and the concrete
sequence 5, ÷, 0, = ends with display "0". -/
theorem divide_by_zero_policy :
    (∀ a : JSNum, applyOp Op.divide a (JSNum.num 0) = JSNum.num 0) ∧
    (run [Ev.digit 5, Ev.binop Op.divide, Ev.digit 0, Ev.eq]).display = "0" :=
  ⟨applyOp_divide_zero, run_c3_display⟩

theorem toggleSign_display (s : CalcState) :
    (toggleSign s).display = jsRender ((jsParseFloat s.display).mul (JSNum.num (-1))) := rfl

/-- C8: toggling the sign twice restores the displayed numeric value
(the display parses to the same number as before), and a single toggle
re-renders the negated parsed value, so "0" stays "0". -/
theorem toggleSign_double_roundtrip (s : CalcState) :
    jsParseFloat ((toggleSign (toggleSign s)).display) = jsParseFloat s.display ∧
    (s.display = "0" → (toggleSign s).display = "0") := by
  constructor
  · rw [toggleSign_display (toggleSign s), toggleSign_display s]
    cases hp : jsParseFloat s.display with
    | nan =>
      rw [show JSNum.nan.mul (JSNum.num (-1)) = JSNum.nan from rfl]
      rw [show jsRender JSNum.nan = "NaN" from rfl]
      rw [show jsParseFloat "NaN" = JSNum.nan from by decide]
      rw [show JSNum.nan.mul (JSNum.num (-1)) = JSNum.nan from rfl]
      rw [show jsRender JSNum.nan = "NaN" from rfl]
      exact (by decide : jsParseFloat "NaN" = JSNum.nan)
    | num v =>
      obtain ⟨k, hk⟩ := jsParseFloat_den_dvd hp
      rw [show (JSNum.num v).mul (JSNum.num (-1)) = JSNum.num (v * -1) from rfl]
      rw [show v * -1 = -v from by ring]
      rw [jsRender_num]
      rw [jsParseFloat_renderVal (K := k) (by rw [rat_neg_den]; exact hk)]
      rw [show (JSNum.num (-v)).mul (JSNum.num (-1)) = JSNum.num (-v * -1) from rfl]
      rw [show -v * -1 = v from by ring]
      rw [jsRender_num, jsParseFloat_renderVal hk]
  · intro h0
    rw [toggleSign_display, h0, jsParseFloat_lit_zero]
    rw [show (JSNum.num 0).mul (JSNum.num (-1)) = JSNum.num (0 * -1) from rfl]
    rw [show (0 : ℚ) * -1 = 0 from by ring]
    exact jsRender_zero

/-- C8 witness: at the initial state, whose display "0" parses; both
conjuncts are discharged concretely. -/
theorem toggleSign_double_roundtrip_witness :
    jsParseFloat ((toggleSign (toggleSign initState)).display) = jsParseFloat initState.display ∧
    (toggleSign initState).display = "0" :=
  ⟨(toggleSign_double_roundtrip initState).1, (toggleSign_double_roundtrip initState).2 rfl⟩



theorem run_inv (P : CalcState → Prop) (h0 : P initState)
    (hstep : ∀ s e, P s → P (step s e)) : ∀ es, P (run es) := by
  intro es
  rw [run]
  suffices h : ∀ s, P s → P (es.foldl step s) from h _ h0
  induction es with
  | nil => intro s hs; exact hs
  | cons e es ih =>
    intro s hs
    rw [List.foldl_cons]
    exact ih _ (hstep s e hs)

theorem backspace_pv_op (s : CalcState) :
    (backspace s).previousValue = s.previousValue ∧ (backspace s).operation = s.operation := by
  rw [backspace]
  split
  · exact ⟨rfl, rfl⟩
  · exact ⟨rfl, rfl⟩

theorem calculate_noop {s : CalcState} (h : s.operation = none ∨ s.previousValue = none) :
    calculate s = s := by
  obtain ⟨d, pv, op, w⟩ := s
  simp only at h
  cases op with
  | none => cases pv <;> rfl
  | some o =>
    cases pv with
    | none => rfl
    | some p => rcases h with h | h <;> simp at h

theorem step_pv_op_iff {s : CalcState} (h : s.operation = none ↔ s.previousValue = none)
    (e : Ev) : ((step s e).operation = none ↔ (step s e).previousValue = none) := by
  cases e with
  | digit d =>
    obtain ⟨h1, h2⟩ := inputDigit_pv_op s (String.mk [digitChar d.1])
    show (inputDigit s _).operation = none ↔ (inputDigit s _).previousValue = none
    rw [h1, h2]
    exact h
  | dot =>
    obtain ⟨h1, h2⟩ := inputDecimal_pv_op s
    show (inputDecimal s).operation = none ↔ (inputDecimal s).previousValue = none
    rw [h1, h2]
    exact h
  | clearBtn => simp [step, clear]
  | back =>
    obtain ⟨h1, h2⟩ := backspace_pv_op s
    show (backspace s).operation = none ↔ (backspace s).previousValue = none
    rw [h1, h2]
    exact h
  | sign => exact h
  | percent => exact h
  | binop o =>
    show (performOperation s o).operation = none ↔ (performOperation s o).previousValue = none
    cases hpv : s.previousValue with
    | none =>
      rw [performOperation_of_none hpv]
      simp
    | some cv =>
      cases hop : s.operation with
      | some op =>
        rw [performOperation_chain hpv hop]
        simp
      | none =>
        rw [performOperation_of_opNone hpv hop]
        simp [hpv]
  | eq =>
    show (calculate s).operation = none ↔ (calculate s).previousValue = none
    cases hop : s.operation with
    | none =>
      rw [calculate_noop (Or.inl hop)]
      exact h
    | some op =>
      cases hpv : s.previousValue with
      | none =>
        rw [calculate_noop (Or.inr hpv)]
        exact h
      | some pv =>
        rw [calculate_go hop hpv]
        simp

/-- C5: in every reachable state the pending operation is absent exactly
when the stored previous value is absent: the first operator press sets
both, clear and equals clear both, and no engine operation touches only
one of them. -/
theorem operation_iff_previousValue (es : List Ev) :
    ((run es).operation = none ↔ (run es).previousValue = none) :=
  run_inv (fun s => (s.operation = none ↔ s.previousValue = none))
    (by simp [initState]) (fun s e hs => step_pv_op_iff hs e) es



theorem string_eq_empty_iff (s : String) : s = "" ↔ s.data = [] := by
  constructor
  · intro h
    rw [h]
  · intro h
    obtain ⟨d⟩ := s
    simp only at h
    rw [h]

theorem mk_ne_empty {L : List Char} (h : L ≠ []) : String.mk L ≠ "" :=
  fun hc => h (congrArg String.data hc)

theorem append_ne_empty_right (s t : String) (h : t.data ≠ []) : s ++ t ≠ "" := by
  intro hc
  have h2 := congrArg String.data hc
  rw [String.data_append] at h2
  rcases List.append_eq_nil.mp h2 with ⟨_, h3⟩
  exact h h3

theorem groupAux_ne_nil (cnt : ℕ) {l : List Char} (h : l ≠ []) : groupAux cnt l ≠ [] := by
  cases l with
  | nil => exact absurd rfl h
  | cons c cs =>
    rw [groupAux]
    split
    · exact List.cons_ne_nil _ _
    · exact List.cons_ne_nil _ _

theorem groupDigits_ne_nil {ds : List Char} (h : ds ≠ []) : groupDigits ds ≠ [] := by
  rw [groupDigits]
  intro hc
  rw [List.reverse_eq_nil_iff] at hc
  exact groupAux_ne_nil 1 (by simpa using h) hc

theorem renderDecL_ne_nil (g : Bool) (m : ℤ) (k : ℕ) : renderDecL g m k ≠ [] := by
  simp only [renderDecL]
  split
  · intro hc
    rcases List.append_eq_nil.mp hc with ⟨_, h2⟩
    revert h2
    split
    · exact fun h2 => groupDigits_ne_nil (natDigits_ne_nil _) h2
    · exact fun h2 => natDigits_ne_nil _ h2
  · intro hc
    rcases List.append_eq_nil.mp hc with ⟨_, h2⟩
    exact List.cons_ne_nil _ _ h2

theorem renderVal_ne_empty (g : Bool) (q : ℚ) : renderVal g q ≠ "" := by
  rw [renderVal]
  cases hf : findExp q.den with
  | some k =>
    exact mk_ne_empty (renderDecL_ne_nil _ _ _)
  | none =>
    exact mk_ne_empty (renderDecL_ne_nil _ _ _)

theorem jsRender_ne_empty (x : JSNum) : jsRender x ≠ "" := by
  cases x with
  | nan => decide
  | num q => exact renderVal_ne_empty false q

theorem step_display_ne_empty {s : CalcState} (h : s.display ≠ "") (e : Ev) :
    (step s e).display ≠ "" := by
  have hdata : s.display.data ≠ [] :=
    fun hc => h ((string_eq_empty_iff s.display).mpr hc)
  cases e with
  | digit d =>
    show (inputDigit s _).display ≠ ""
    cases hw : s.waitingForOperand with
    | true =>
      rw [inputDigit_of_waiting hw]
      exact mk_ne_empty (by simp)
    | false =>
      rw [inputDigit_of_not_waiting hw]
      show (if s.display = "0" then _ else _) ≠ ""
      split
      · exact mk_ne_empty (by simp)
      · exact append_ne_empty_right _ _ (by simp)
  | dot =>
    show (inputDecimal s).display ≠ ""
    cases hw : s.waitingForOperand with
    | true =>
      rw [inputDecimal_of_waiting hw]
      exact (show ("0." : String) ≠ "" from by decide)
    | false =>
      by_cases hdot : '.' ∈ s.display.data
      · rw [inputDecimal_of_mem hw hdot]
        exact h
      · rw [inputDecimal_append hw hdot]
        exact append_ne_empty_right _ _ (by simp)
  | clearBtn => exact (show ("0" : String) ≠ "" from by decide)
  | back =>
    show (backspace s).display ≠ ""
    cases hw : s.waitingForOperand with
    | true =>
      rw [backspace_of_waiting hw]
      exact h
    | false =>
      rw [backspace_of_not_waiting hw]
      show (if s.display.length = 1 then _ else _) ≠ ""
      split
      · decide
      · next hlen =>
        apply mk_ne_empty
        rw [← List.length_pos, List.length_dropLast]
        have h1 : 0 < s.display.data.length := List.length_pos.mpr hdata
        have h2 : s.display.length = s.display.data.length := rfl
        rw [h2] at hlen
        omega
  | sign => exact jsRender_ne_empty _
  | percent => exact jsRender_ne_empty _
  | binop o =>
    show (performOperation s o).display ≠ ""
    cases hpv : s.previousValue with
    | none =>
      rw [performOperation_of_none hpv]
      exact h
    | some cv =>
      cases hop : s.operation with
      | some op =>
        rw [performOperation_chain hpv hop]
        exact jsRender_ne_empty _
      | none =>
        rw [performOperation_of_opNone hpv hop]
        exact h
  | eq =>
    show (calculate s).display ≠ ""
    cases hop : s.operation with
    | none =>
      rw [calculate_noop (Or.inl hop)]
      exact h
    | some op =>
      cases hpv : s.previousValue with
      | none =>
        rw [calculate_noop (Or.inr hpv)]
        exact h
      | some pv =>
        rw [calculate_go hop hpv]
        exact jsRender_ne_empty _

/-- C10: the display string is nonempty in every reachable state; every
engine transition preserves nonemptiness (backspace replaces a fully
erased operand by "0"), and clear resets the display to "0". -/
theorem display_never_empty :
    (∀ (s : CalcState) (e : Ev), s.display ≠ "" → (step s e).display ≠ "") ∧
    (∀ es : List Ev, (run es).display ≠ "") ∧
    ∀ s : CalcState, (clear s).display = "0" :=
  ⟨fun s e h => step_display_ne_empty h e,
   run_inv (fun s => s.display ≠ "") (by decide)
     (fun s e hs => step_display_ne_empty hs e),
   fun _ => rfl⟩

/-- C10 witness: a backspace from the freshly mounted state keeps the
display nonempty, and clear yields "0". -/
theorem display_never_empty_witness :
    (step initState Ev.back).display ≠ "" ∧ (run []).display ≠ "" ∧
    (clear initState).display = "0" :=
  ⟨display_never_empty.1 initState Ev.back (by decide),
   display_never_empty.2.1 [],
   display_never_empty.2.2 initState⟩



theorem char_isDigit_ne_minus {c : Char} (h : c.isDigit = true) : c ≠ '-' := by
  intro he
  rw [he] at h
  exact absurd h (by decide)

theorem char_isDigit_ne_plus {c : Char} (h : c.isDigit = true) : c ≠ '+' := by
  intro he
  rw [he] at h
  exact absurd h (by decide)

theorem char_isDigit_ne_dot {c : Char} (h : c.isDigit = true) : c ≠ '.' := by
  intro he
  rw [he] at h
  exact absurd h (by decide)

theorem dot_not_mem_natDigits (n : ℕ) : '.' ∉ natDigits n := by
  intro h
  obtain ⟨d, hd, hc⟩ := natDigits_mem h
  exact digitChar_ne_dot hd hc.symm

theorem dot_not_mem_fracChars (k r : ℕ) : '.' ∉ fracChars k r := by
  intro h
  exact absurd (fracChars_isDigit h) (by decide)

theorem goodCore_append_digit {w : List Char} {d : ℕ} (h : goodCore w) (hd : d < 10) :
    goodCore (w ++ [digitChar d]) := by
  obtain ⟨hne, hch, hcount, c0, hc0, hc0d⟩ := h
  refine ⟨by simp, ?_, ?_, c0, List.mem_append_left _ hc0, hc0d⟩
  · intro c hc
    rcases List.mem_append.mp hc with hc | hc
    · exact hch c hc
    · rcases List.mem_singleton.mp hc with rfl
      exact Or.inl (digitChar_isDigit hd)
  · rw [List.count_append]
    have hz : List.count '.' [digitChar d] = 0 := by
      rw [List.count_eq_zero]
      intro hm
      rcases List.mem_singleton.mp hm with hm
      exact digitChar_ne_dot hd hm.symm
    omega

theorem goodCore_append_dot {w : List Char} (h : goodCore w) (hnm : '.' ∉ w) :
    goodCore (w ++ ['.']) := by
  obtain ⟨hne, hch, _, c0, hc0, hc0d⟩ := h
  refine ⟨by simp, ?_, ?_, c0, List.mem_append_left _ hc0, hc0d⟩
  · intro c hc
    rcases List.mem_append.mp hc with hc | hc
    · exact hch c hc
    · rcases List.mem_singleton.mp hc with rfl
      exact Or.inr rfl
  · rw [List.count_append]
    have h1 : w.count '.' = 0 := List.count_eq_zero.mpr hnm
    have h2 : List.count '.' ['.'] = 1 := by decide
    omega

theorem goodCore_dropLast {w : List Char} (h : goodCore w) (hlen : 2 ≤ w.length) :
    goodCore w.dropLast ∨ w.dropLast = ['.'] := by
  obtain ⟨hne, hch, hcount, hex⟩ := h
  by_cases hdig : ∃ c ∈ w.dropLast, c.isDigit = true
  · left
    refine ⟨?_, ?_, ?_, hdig⟩
    · rw [← List.length_pos, List.length_dropLast]
      omega
    · exact fun c hc => hch c ((List.dropLast_sublist w).subset hc)
    · exact le_trans ((List.dropLast_sublist w).count_le '.') hcount
  · right
    push_neg at hdig
    have hall : ∀ c ∈ w.dropLast, c = '.' := by
      intro c hc
      rcases hch c ((List.dropLast_sublist w).subset hc) with h1 | h1
      · exact absurd h1 (hdig c hc)
      · exact h1
    have hlen1 : w.dropLast.length = 1 := by
      have hge : 1 ≤ w.dropLast.length := by
        rw [List.length_dropLast]
        omega
      have hcnt : w.dropLast.count '.' = w.dropLast.length :=
        List.count_eq_length.mpr (fun b hb => (hall b hb).symm)
      have hle := le_trans ((List.dropLast_sublist w).count_le '.') hcount
      omega
    obtain ⟨a, ha⟩ := List.length_eq_one.mp hlen1
    have hmem : a ∈ w.dropLast := by
      rw [ha]
      exact List.mem_singleton.mpr rfl
    rw [ha, hall a hmem]

theorem goodCore_singleton_digit {d : ℕ} (hd : d < 10) : goodCore [digitChar d] :=
  ⟨by simp, fun c hc => by
    rcases List.mem_singleton.mp hc with rfl
    exact Or.inl (digitChar_isDigit hd),
   by
    rw [List.count_eq_zero.mpr]
    · omega
    · intro hm
      rcases List.mem_singleton.mp hm with hm
      exact digitChar_ne_dot hd hm.symm,
   ⟨digitChar d, List.mem_singleton.mpr rfl, digitChar_isDigit hd⟩⟩

theorem goodCore_core (n k : ℕ) :
    goodCore (natDigits (n / 10 ^ k) ++
      (if k = 0 then [] else '.' :: fracChars k (n % 10 ^ k))) := by
  refine ⟨?_, ?_, ?_, ?_⟩
  · intro hc
    rcases List.append_eq_nil.mp hc with ⟨h1, _⟩
    exact natDigits_ne_nil _ h1
  · intro c hc
    rcases List.mem_append.mp hc with hc | hc
    · exact Or.inl (natDigits_isDigit hc)
    · revert hc
      split
      · intro hc
        simp at hc
      · intro hc
        rcases List.mem_cons.mp hc with rfl | hc
        · exact Or.inr rfl
        · exact Or.inl (fracChars_isDigit hc)
  · rw [List.count_append]
    have h1 : (natDigits (n / 10 ^ k)).count '.' = 0 :=
      List.count_eq_zero.mpr (dot_not_mem_natDigits _)
    have h2 : List.count '.' (if k = 0 then [] else '.' :: fracChars k (n % 10 ^ k)) ≤ 1 := by
      split
      · simp
      · rw [List.count_cons]
        have h3 : (fracChars k (n % 10 ^ k)).count '.' = 0 :=
          List.count_eq_zero.mpr (dot_not_mem_fracChars _ _)
        simp [h3]
    omega
  · obtain ⟨c, hc⟩ := List.exists_mem_of_ne_nil _ (natDigits_ne_nil (n / 10 ^ k))
    exact ⟨c, List.mem_append_left _ hc, natDigits_isDigit hc⟩

theorem goodStr_renderDecL (m : ℤ) (k : ℕ) : GoodStr (String.mk (renderDecL false m k)) := by
  rw [renderDecL_eq_sign_core]
  by_cases hm : m < 0
  · rw [if_pos hm]
    exact Or.inr ⟨_, rfl, goodCore_core m.natAbs k⟩
  · rw [if_neg hm]
    exact Or.inl (goodCore_core m.natAbs k)

theorem goodStr_renderVal (q : ℚ) : GoodStr (renderVal false q) := by
  rw [renderVal]
  cases hf : findExp q.den with
  | some k => exact goodStr_renderDecL _ _
  | none => exact goodStr_renderDecL _ _

theorem displayOK_jsRender (x : JSNum) : DisplayOK (jsRender x) := by
  cases x with
  | nan => exact Or.inr (Or.inr (Or.inr (Or.inr rfl)))
  | num q => exact Or.inl (goodStr_renderVal q)

theorem goodCore_guard {w : List Char} (h : goodCore w) :
    ¬((takeDigits w).1 = [] ∧
      (if (takeDigits w).2.head? = some '.' then (takeDigits (takeDigits w).2.tail).1
       else []) = []) := by
  obtain ⟨hne, hchars, hcount, c0, hc0mem, hc0dig⟩ := h
  cases w with
  | nil => exact absurd rfl hne
  | cons c t =>
    rcases hchars c (List.mem_cons_self c t) with hcd | hcdot
    · rw [takeDigits, if_pos hcd]
      intro hand
      exact List.cons_ne_nil _ _ hand.1
    · subst hcdot
      rw [takeDigits_cons_not_digit (by decide)]
      simp only [List.head?_cons, List.tail_cons, if_pos rfl]
      have htdig : ∀ x ∈ t, x.isDigit = true := by
        intro x hx
        rcases hchars x (List.mem_cons_of_mem _ hx) with h1 | h1
        · exact h1
        · subst h1
          exfalso
          have hc1 : ('.' :: t).count '.' = t.count '.' + 1 := by
            rw [List.count_cons]
            simp
          have hc2 : t.count '.' = 0 := by omega
          exact (List.count_eq_zero.mp hc2) hx
      have htne : t ≠ [] := by
        rcases List.mem_cons.mp hc0mem with rfl | hmem
        · exact absurd hc0dig (by decide)
        · exact List.ne_nil_of_mem hmem
      rw [takeDigits_all_digits htdig]
      intro hand
      exact htne hand.2

theorem parse_good {s : String} (h : GoodStr s) : jsParseFloat s ≠ JSNum.nan := by
  rw [jsParseFloat, parseFloatAux]
  rcases h with hc | ⟨t, ht, hct⟩
  · have hps : parseSign s.data = (false, s.data) := by
      obtain ⟨hne, hchars, _, _⟩ := hc
      cases hw : s.data with
      | nil => exact absurd hw hne
      | cons c t' =>
        rcases hchars c (hw ▸ List.mem_cons_self c t') with hcd | hcdot
        · rw [parseSign, if_neg (char_isDigit_ne_minus hcd), if_neg (char_isDigit_ne_plus hcd)]
        · subst hcdot
          rw [parseSign, if_neg (by decide), if_neg (by decide)]
    rw [hps]
    simp only
    rw [if_neg (goodCore_guard hc)]
    simp
  · rw [ht]
    rw [show parseSign ('-' :: t) = (true, t) from by rw [parseSign]; simp]
    simp only
    rw [if_neg (goodCore_guard hct)]
    simp



theorem goodCore_zero : goodCore ("0" : String).data :=
  ⟨by decide, by decide, by decide, '0', by decide, by decide⟩

theorem goodStr_zero : GoodStr "0" := Or.inl goodCore_zero

theorem goodCore_zero_dot : goodCore ("0." : String).data :=
  ⟨by decide, by decide, by decide, '0', by decide, by decide⟩

theorem goodCore_dot_digit {d : ℕ} (hd : d < 10) : goodCore ['.', digitChar d] := by
  refine ⟨by simp, ?_, ?_, digitChar d,
    List.mem_cons_of_mem _ (List.mem_singleton.mpr rfl), digitChar_isDigit hd⟩
  · intro c hc
    rcases List.mem_cons.mp hc with rfl | hc
    · exact Or.inr rfl
    · rcases List.mem_singleton.mp hc with rfl
      exact Or.inl (digitChar_isDigit hd)
  · have h1 : [digitChar d].count '.' = 0 :=
      List.count_eq_zero.mpr (fun hm => digitChar_ne_dot hd (List.mem_singleton.mp hm).symm)
    rw [List.count_cons, h1]
    simp

theorem goodStr_append_digit {s : String} (h : GoodStr s) {d : ℕ} (hd : d < 10) :
    GoodStr (s ++ String.mk [digitChar d]) := by
  rcases h with hc | ⟨t, ht, hct⟩
  · refine Or.inl ?_
    rw [String.data_append]
    exact goodCore_append_digit hc hd
  · refine Or.inr ⟨t ++ [digitChar d], ?_, goodCore_append_digit hct hd⟩
    rw [String.data_append, ht]
    rfl

theorem goodStr_append_dot {s : String} (h : GoodStr s) (hnm : '.' ∉ s.data) :
    GoodStr (s ++ ".") := by
  rcases h with hc | ⟨t, ht, hct⟩
  · refine Or.inl ?_
    rw [String.data_append]
    exact goodCore_append_dot hc hnm
  · have hnt : '.' ∉ t := by
      intro hmem
      exact hnm (by rw [ht]; exact List.mem_cons_of_mem _ hmem)
    refine Or.inr ⟨t ++ ['.'], ?_, goodCore_append_dot hct hnt⟩
    rw [String.data_append, ht]
    rfl

theorem head_N_append {s : String} (h : s.data.head? = some 'N') (t : String) :
    (s ++ t).data.head? = some 'N' := by
  rw [String.data_append]
  cases hd : s.data with
  | nil =>
    rw [hd] at h
    simp at h
  | cons c cs =>
    rw [hd] at h
    simp only [List.head?_cons, Option.some.injEq] at h
    rw [List.cons_append, List.head?_cons, h]

theorem dropLast_cons_ne {a : Char} {t : List Char} (h : t ≠ []) :
    (a :: t).dropLast = a :: t.dropLast := by
  cases t with
  | nil => exact absurd rfl h
  | cons b l => rfl

theorem displayOK_ne_nil {s : String} (h : DisplayOK s) : s.data ≠ [] := by
  rcases h with hg | hj
  · rcases hg with hc | ⟨t, ht, _⟩
    · exact hc.1
    · rw [ht]
      exact List.cons_ne_nil _ _
  · rcases hj with hj | hj | hj | hj
    · rw [hj]; exact List.cons_ne_nil _ _
    · rw [hj]; exact List.cons_ne_nil _ _
    · rw [hj]; exact List.cons_ne_nil _ _
    · intro hc
      rw [hc] at hj
      simp at hj

theorem displayOK_step {s : CalcState} (h : DisplayOK s.display) (e : Ev) :
    DisplayOK ((step s e).display) := by
  cases e with
  | digit d =>
    show DisplayOK (inputDigit s (String.mk [digitChar d.1])).display
    have hd : d.1 < 10 := d.2
    cases hw : s.waitingForOperand with
    | true =>
      rw [inputDigit_of_waiting hw]
      exact Or.inl (Or.inl (goodCore_singleton_digit hd))
    | false =>
      rw [inputDigit_of_not_waiting hw]
      show DisplayOK (if s.display = "0" then String.mk [digitChar d.1]
        else s.display ++ String.mk [digitChar d.1])
      split
      · exact Or.inl (Or.inl (goodCore_singleton_digit hd))
      · rcases h with hg | hj
        · exact Or.inl (goodStr_append_digit hg hd)
        · rcases hj with hj | hj | hj | hj
          · refine Or.inl (Or.inr ⟨[digitChar d.1], ?_, goodCore_singleton_digit hd⟩)
            rw [String.data_append, hj]
            rfl
          · refine Or.inl (Or.inr ⟨['.', digitChar d.1], ?_, goodCore_dot_digit hd⟩)
            rw [String.data_append, hj]
            rfl
          · refine Or.inl (Or.inl ?_)
            rw [String.data_append, hj]
            exact goodCore_dot_digit hd
          · exact Or.inr (Or.inr (Or.inr (Or.inr (head_N_append hj _))))
  | dot =>
    show DisplayOK (inputDecimal s).display
    cases hw : s.waitingForOperand with
    | true =>
      rw [inputDecimal_of_waiting hw]
      exact Or.inl (Or.inl goodCore_zero_dot)
    | false =>
      by_cases hdot : '.' ∈ s.display.data
      · rw [inputDecimal_of_mem hw hdot]
        exact h
      · rw [inputDecimal_append hw hdot]
        rcases h with hg | hj
        · exact Or.inl (goodStr_append_dot hg hdot)
        · rcases hj with hj | hj | hj | hj
          · refine Or.inr (Or.inr (Or.inl ?_))
            rw [String.data_append, hj]
            decide
          · exact absurd (show ('.' : Char) ∈ s.display.data from by rw [hj]; decide) hdot
          · exact absurd (show ('.' : Char) ∈ s.display.data from by rw [hj]; decide) hdot
          · exact Or.inr (Or.inr (Or.inr (Or.inr (head_N_append hj _))))
  | clearBtn => exact Or.inl goodStr_zero
  | back =>
    show DisplayOK (backspace s).display
    cases hw : s.waitingForOperand with
    | true =>
      rw [backspace_of_waiting hw]
      exact h
    | false =>
      rw [backspace_of_not_waiting hw]
      show DisplayOK (if s.display.length = 1 then "0" else String.mk s.display.data.dropLast)
      split
      · exact Or.inl goodStr_zero
      · next hlen =>
        have hne : s.display.data ≠ [] := displayOK_ne_nil h
        have hlen2 : 2 ≤ s.display.data.length := by
          have h1 : 0 < s.display.data.length := List.length_pos.mpr hne
          have h2 : s.display.length = s.display.data.length := rfl
          rw [h2] at hlen
          omega
        rcases h with hg | hj
        · rcases hg with hc | ⟨t, ht, hct⟩
          · rcases goodCore_dropLast hc hlen2 with h1 | h1
            · exact Or.inl (Or.inl h1)
            · exact Or.inr (Or.inr (Or.inr (Or.inl h1)))
          · have htne : t ≠ [] := by
              intro hT
              rw [hT] at hct
              exact hct.1 rfl
            by_cases hlt : 2 ≤ t.length
            · rcases goodCore_dropLast hct hlt with h1 | h1
              · refine Or.inl (Or.inr ⟨t.dropLast, ?_, h1⟩)
                show s.display.data.dropLast = '-' :: t.dropLast
                rw [ht, dropLast_cons_ne htne]
              · refine Or.inr (Or.inr (Or.inl ?_))
                show s.display.data.dropLast = ['-', '.']
                rw [ht, dropLast_cons_ne htne, h1]
            · have ht1 : t.length = 1 := by
                have hp : 0 < t.length := List.length_pos.mpr htne
                omega
              refine Or.inr (Or.inl ?_)
              show s.display.data.dropLast = ['-']
              rw [ht, dropLast_cons_ne htne]
              have hdl : t.dropLast = [] := by
                have hl0 : t.dropLast.length = 0 := by
                  rw [List.length_dropLast]
                  omega
                exact List.eq_nil_of_length_eq_zero hl0
              rw [hdl]
        · rcases hj with hj | hj | hj | hj
          · rw [hj] at hlen2
            simp at hlen2
          · refine Or.inr (Or.inl ?_)
            show s.display.data.dropLast = ['-']
            rw [hj]
            decide
          · rw [hj] at hlen2
            simp at hlen2
          · refine Or.inr (Or.inr (Or.inr (Or.inr ?_)))
            show (String.mk s.display.data.dropLast).data.head? = some 'N'
            cases hD : s.display.data with
            | nil => exact absurd hD hne
            | cons c cs =>
              rw [hD] at hj hlen2
              simp only [List.head?_cons, Option.some.injEq] at hj
              have hcs : cs ≠ [] := by
                intro hc0
                rw [hc0] at hlen2
                simp at hlen2
              show (c :: cs).dropLast.head? = some 'N'
              rw [dropLast_cons_ne hcs, List.head?_cons, hj]
  | sign =>
    show DisplayOK (toggleSign s).display
    exact displayOK_jsRender _
  | percent =>
    show DisplayOK (inputPercent s).display
    exact displayOK_jsRender _
  | binop o =>
    show DisplayOK (performOperation s o).display
    cases hpv : s.previousValue with
    | none =>
      rw [performOperation_of_none hpv]
      exact h
    | some cv =>
      cases hop : s.operation with
      | some op =>
        rw [performOperation_chain hpv hop]
        exact displayOK_jsRender _
      | none =>
        rw [performOperation_of_opNone hpv hop]
        exact h
  | eq =>
    show DisplayOK (calculate s).display
    cases hop : s.operation with
    | none =>
      rw [calculate_noop (Or.inl hop)]
      exact h
    | some op =>
      cases hpv : s.previousValue with
      | none =>
        rw [calculate_noop (Or.inr hpv)]
        exact h
      | some pv =>
        rw [calculate_go hop hpv]
        exact displayOK_jsRender _

theorem displayOK_run (es : List Ev) : DisplayOK (run es).display :=
  run_inv (fun s => DisplayOK s.display) (Or.inl goodStr_zero)
    (fun _ e hs => displayOK_step hs e) es

/-- C4 is refuted at a concrete reachable state: after 5, ±, backspace
the display is "-", which does not end in a decimal point and does not
parse to a number (parseFloat gives NaN). -/
theorem display_parse_counterexample :
    (run [Ev.digit 5, Ev.sign, Ev.back]).display = "-" ∧
    ((run [Ev.digit 5, Ev.sign, Ev.back]).display.data.getLast? = some '.' → False) ∧
    jsParseFloat (run [Ev.digit 5, Ev.sign, Ev.back]).display = JSNum.nan := by
  have t1 : step initState (Ev.digit 5) = ⟨"5", none, none, false⟩ := by decide
  have t2 : step (⟨"5", none, none, false⟩ : CalcState) Ev.sign = ⟨"-5", none, none, false⟩ := by
    simp only [step, toggleSign]
    rw [jsParseFloat_lit_five]
    rw [show (JSNum.num 5).mul (JSNum.num (-1)) = JSNum.num (-5) from by
      show JSNum.num (5 * -1) = _
      norm_num]
    rw [jsRender_den_one (show ((-5 : ℚ)).den = 1 from by simp)]
    rw [show ((-5 : ℚ)).num = -5 from by simp]
    decide
  have t3 : step (⟨"-5", none, none, false⟩ : CalcState) Ev.back = ⟨"-", none, none, false⟩ := by
    decide
  have hr : run [Ev.digit 5, Ev.sign, Ev.back] = ⟨"-", none, none, false⟩ := by
    rw [run]
    simp only [List.foldl_cons, List.foldl_nil]
    rw [t1, t2, t3]
  rw [hr]
  exact ⟨rfl, by decide, by decide⟩

/-- C4 (amended): in every reachable state the display parses to a
finite number, except transiently while it ends in a decimal point or
when it is one of the non-parsing residues the engine can leave behind:
"-", "-." or "." after backspacing a signed operand, or a NaN artifact
beginning with 'N' propagated from parsing such a residue. -/
theorem display_parses_or_residue (es : List Ev) :
    jsParseFloat (run es).display ≠ JSNum.nan ∨
    (run es).display.data.getLast? = some '.' ∨ JunkStr (run es).display := by
  rcases displayOK_run es with hg | hj
  · exact Or.inl (parse_good hg)
  · exact Or.inr (Or.inr hj)



theorem jsRound_intCast (z : ℤ) : jsRound ((z : ℚ)) = z := by
  rw [jsRound, Rat.num_intCast, Rat.den_intCast]
  split <;> omega

theorem round10_den_dvd (q : ℚ) : (round10 q).den ∣ 10 ^ 10 := by
  apply den_dvd_of_eq_div (z := jsRound (q * 10 ^ 10)) (w := 10 ^ 10)
  rw [round10]
  norm_num

theorem rat_mul_ten_pow_eq {q : ℚ} {k : ℕ} (h : q.den ∣ 10 ^ k) :
    q * 10 ^ k = ((q.num * ((10 ^ k / q.den : ℕ) : ℤ) : ℤ) : ℚ) := by
  have hval := renderVal_value (k := k) h
  rw [div_eq_iff (by positivity : (10 : ℚ) ^ k ≠ 0)] at hval
  exact hval.symm

theorem round10_eq_self {q : ℚ} (h : q.den ∣ 10 ^ 10) : round10 q = q := by
  rw [round10, rat_mul_ten_pow_eq h, jsRound_intCast]
  exact renderVal_value h

theorem groupAux_eq_or_mem :
    ∀ (l : List Char) (cnt : ℕ), groupAux cnt l = l ∨ ',' ∈ groupAux cnt l := by
  intro l
  induction l with
  | nil => intro cnt; exact Or.inl rfl
  | cons c cs ih =>
    intro cnt
    rw [groupAux]
    split
    · right
      simp
    · rcases ih (cnt + 1) with h | h
      · left
        rw [h]
      · right
        exact List.mem_cons_of_mem _ h

theorem groupDigits_eq_or_mem (ds : List Char) :
    groupDigits ds = ds ∨ ',' ∈ groupDigits ds := by
  rw [groupDigits]
  rcases groupAux_eq_or_mem ds.reverse 1 with h | h
  · left
    rw [h, List.reverse_reverse]
  · right
    rw [List.mem_reverse]
    exact h

theorem renderDecL_true_eq_sign_core (m : ℤ) (k : ℕ) :
    renderDecL true m k = (if m < 0 then ['-'] else []) ++
      (groupDigits (natDigits (m.natAbs / 10 ^ k)) ++
        (if k = 0 then [] else '.' :: fracChars k (m.natAbs % 10 ^ k))) := by
  rw [renderDecL]
  by_cases hk : k = 0
  · subst hk
    simp
  · rw [if_neg hk, if_neg hk]
    simp

theorem renderDecL_true_eq_false {m : ℤ} {k : ℕ} (h : ¬ (',' ∈ renderDecL true m k)) :
    renderDecL true m k = renderDecL false m k := by
  rw [renderDecL_true_eq_sign_core] at h ⊢
  rw [renderDecL_eq_sign_core]
  rcases groupDigits_eq_or_mem (natDigits (m.natAbs / 10 ^ k)) with hg | hg
  · rw [hg]
  · exact absurd (List.mem_append_right _ (List.mem_append_left _ hg)) h

theorem getLast?_append_right {A B : List Char} (h : B ≠ []) :
    (A ++ B).getLast? = B.getLast? := by
  have h1 := List.head?_reverse (A ++ B)
  have h2 := List.head?_reverse B
  rw [← h1, ← h2, List.reverse_append]
  cases hB : B.reverse with
  | nil => exact absurd (List.reverse_eq_nil_iff.mp hB) h
  | cons c cs => rw [List.cons_append]; rfl

theorem mem_of_getLast?_char {l : List Char} {c : Char} (h : l.getLast? = some c) : c ∈ l := by
  rw [← List.head?_reverse] at h
  cases hl : l.reverse with
  | nil => rw [hl] at h; simp at h
  | cons a t =>
    rw [hl] at h
    simp only [List.head?_cons, Option.some.injEq] at h
    subst h
    have hmem : a ∈ l.reverse := by
      rw [hl]
      exact List.mem_cons_self a t
    rwa [List.mem_reverse] at hmem

theorem fracChars_ne_nil {k r : ℕ} : fracChars k r ≠ [] := by
  rw [fracChars]
  intro hc
  rcases List.append_eq_nil.mp hc with ⟨_, h2⟩
  exact natDigits_ne_nil _ h2

theorem renderDecL_false_getLast_ne_dot (m : ℤ) (k : ℕ) :
    ¬ ((renderDecL false m k).getLast? = some '.') := by
  rw [renderDecL_eq_sign_core]
  by_cases hk : k = 0
  · subst hk
    rw [if_pos rfl, List.append_nil]
    rw [getLast?_append_right (natDigits_ne_nil _)]
    intro hc
    exact dot_not_mem_natDigits _ (mem_of_getLast?_char hc)
  · rw [if_neg hk]
    rw [getLast?_append_right (by
      intro hc
      rcases List.append_eq_nil.mp hc with ⟨h1, _⟩
      exact natDigits_ne_nil _ h1)]
    rw [getLast?_append_right (List.cons_ne_nil _ _)]
    rw [show ('.' :: fracChars k (m.natAbs % 10 ^ k)) = ['.'] ++ fracChars k (m.natAbs % 10 ^ k)
      from rfl]
    rw [getLast?_append_right fracChars_ne_nil]
    intro hc
    exact dot_not_mem_fracChars _ _ (mem_of_getLast?_char hc)

theorem renderDecL_false_dot_not_mem (m : ℤ) : ¬ ('.' ∈ renderDecL false m 0) := by
  rw [renderDecL_eq_sign_core, if_pos rfl, List.append_nil]
  intro hc
  rcases List.mem_append.mp hc with h1 | h1
  · revert h1
    split
    · intro h1
      rcases List.mem_singleton.mp h1 with h1
      exact absurd h1 (by decide)
    · intro h1
      simp at h1
  · exact dot_not_mem_natDigits _ h1

theorem minimal_not_ten_dvd {q : ℚ} {k : ℕ} (hk : 0 < k) (hdvd : q.den ∣ 10 ^ k)
    (hmin : ∀ i < k, ¬ q.den ∣ 10 ^ i) :
    ¬ ((10 : ℕ) ∣ (q.num * ((10 ^ k / q.den : ℕ) : ℤ)).natAbs % 10 ^ k) := by
  intro h10
  have hq := renderVal_value (k := k) hdvd
  set m := q.num * ((10 ^ k / q.den : ℕ) : ℤ) with hm
  have hn10 : (10 : ℕ) ∣ m.natAbs := by
    have hsplit := Nat.div_add_mod m.natAbs (10 ^ k)
    have hd1 : (10 : ℕ) ∣ 10 ^ k := dvd_pow_self 10 hk.ne'
    have hadd := Nat.dvd_add (Dvd.dvd.mul_right hd1 (m.natAbs / 10 ^ k)) h10
    rwa [hsplit] at hadd
  have hz10 : (10 : ℤ) ∣ m :=
    Int.natAbs_dvd_natAbs.mp (show (10 : ℤ).natAbs ∣ m.natAbs from hn10)
  obtain ⟨m', hm'⟩ := hz10
  have hqk : q = (m' : ℚ) / ((10 ^ (k - 1) : ℕ) : ℚ) := by
    rw [← hq, hm']
    push_cast
    have h1 : (10 : ℚ) ^ k = 10 * 10 ^ (k - 1) := by
      conv_lhs => rw [show k = (k - 1) + 1 from by omega]
      rw [pow_succ]
      ring
    rw [h1]
    have h2 : (10 : ℚ) ^ (k - 1) ≠ 0 := by positivity
    field_simp
    ring
  exact hmin (k - 1) (by omega) (den_dvd_of_eq_div hqk)

theorem renderDecL_false_no_trailzero {q : ℚ} {k : ℕ} (hk : 0 < k) (hdvd : q.den ∣ 10 ^ k)
    (hmin : ∀ i < k, ¬ q.den ∣ 10 ^ i) :
    ¬ ((renderDecL false (q.num * ((10 ^ k / q.den : ℕ) : ℤ)) k).getLast? = some '0') := by
  have h10 := minimal_not_ten_dvd hk hdvd hmin
  set m := q.num * ((10 ^ k / q.den : ℕ) : ℤ) with hm
  set r := m.natAbs % 10 ^ k with hr
  have hr0 : r ≠ 0 := by
    intro hc
    exact h10 (by rw [hc]; exact dvd_zero 10)
  have hrm : r % 10 ≠ 0 := fun hc => h10 (Nat.dvd_of_mod_eq_zero hc)
  rw [renderDecL_eq_sign_core, if_neg (Nat.pos_iff_ne_zero.mp hk)]
  rw [getLast?_append_right (by
    intro hc
    rcases List.append_eq_nil.mp hc with ⟨h1, _⟩
    exact natDigits_ne_nil _ h1)]
  rw [getLast?_append_right (List.cons_ne_nil _ _)]
  rw [show ('.' :: fracChars k (m.natAbs % 10 ^ k)) = ['.'] ++ fracChars k (m.natAbs % 10 ^ k)
    from rfl]
  rw [getLast?_append_right fracChars_ne_nil]
  rw [fracChars, getLast?_append_right (natDigits_ne_nil _)]
  rw [natDigits_getLast?_of_pos (Nat.pos_of_ne_zero hr0)]
  intro hc
  rw [Option.some.injEq] at hc
  exact hrm ((digitChar_eq_zero_iff (Nat.mod_lt _ (by norm_num))).mp hc)



theorem formatDisplay_of_nan {value : String} (h : jsParseFloat value = JSNum.nan) :
    formatDisplay value = value := by
  rw [formatDisplay, h]

theorem formatDisplay_of_num {value : String} {n : ℚ} (h : jsParseFloat value = JSNum.num n) :
    formatDisplay value = if value.data.getLast? = some '.' then value
      else if '.' ∈ value.data ∧ value.data.getLast? = some '0' then value
      else toLocaleString10 n := by
  rw [formatDisplay, h]

theorem jsParseFloat_all_digits {L : List Char} (hne : L ≠ [])
    (h : ∀ c ∈ L, c.isDigit = true) : parseFloatAux L = JSNum.num (digitsVal L) := by
  have hps : parseSign L = (false, L) := by
    cases hl : L with
    | nil => exact absurd hl hne
    | cons c t =>
      have hc := h c (hl ▸ List.mem_cons_self c t)
      rw [parseSign, if_neg (char_isDigit_ne_minus hc), if_neg (char_isDigit_ne_plus hc)]
  rw [parseFloatAux, hps]
  simp only
  rw [takeDigits_all_digits h]
  have hnil : digitsVal [] = 0 := rfl
  simp [hne, hnil]

theorem formatDisplay_toLocale_fixed (v : ℚ)
    (hnc : ¬ (',' ∈ (toLocaleString10 v).data)) :
    formatDisplay (toLocaleString10 v) = toLocaleString10 v := by
  have hr10 : (round10 v).den ∣ 10 ^ 10 := round10_den_dvd v
  obtain ⟨k, hfind, hdvd, hmin⟩ := findExp_spec (round10 v).den_pos hr10
  have htl : toLocaleString10 v = String.mk
      (renderDecL true ((round10 v).num * ((10 ^ k / (round10 v).den : ℕ) : ℤ)) k) := by
    rw [toLocaleString10, renderVal, hfind]
  rw [htl] at hnc ⊢
  have hnc' : ¬ (',' ∈
      renderDecL true ((round10 v).num * ((10 ^ k / (round10 v).den : ℕ) : ℤ)) k) := hnc
  rw [renderDecL_true_eq_false hnc']
  have hparse : jsParseFloat (String.mk
      (renderDecL false ((round10 v).num * ((10 ^ k / (round10 v).den : ℕ) : ℤ)) k))
      = JSNum.num (round10 v) := by
    rw [jsParseFloat_mk, parseFloatAux_renderDecL, renderVal_value hdvd]
  have hb1 : ¬ ((String.mk (renderDecL false ((round10 v).num *
      ((10 ^ k / (round10 v).den : ℕ) : ℤ)) k)).data.getLast? = some '.') :=
    renderDecL_false_getLast_ne_dot _ _
  have hb2 : ¬ ('.' ∈ (String.mk (renderDecL false ((round10 v).num *
      ((10 ^ k / (round10 v).den : ℕ) : ℤ)) k)).data ∧
      (String.mk (renderDecL false ((round10 v).num *
      ((10 ^ k / (round10 v).den : ℕ) : ℤ)) k)).data.getLast? = some '0') := by
    intro hand
    by_cases hk : k = 0
    · subst hk
      exact renderDecL_false_dot_not_mem _ hand.1
    · exact renderDecL_false_no_trailzero (Nat.pos_of_ne_zero hk) hdvd hmin hand.2
  rw [formatDisplay_of_num hparse, if_neg hb1, if_neg hb2]
  rw [toLocaleString10, round10_eq_self hr10, renderVal, hfind]
  exact congrArg String.mk (renderDecL_true_eq_false hnc')

/-- C9 is refuted at a concrete input: "1234" does not end in a decimal
point, yet formatting twice differs from formatting once — the grouped
output "1,234" re-parses only up to the comma, so the second pass
produces "1". -/
theorem formatter_not_idempotent :
    ¬ (("1234" : String).data.getLast? = some '.') ∧
    formatDisplay (formatDisplay "1234") ≠ formatDisplay "1234" := by
  refine ⟨by decide, ?_⟩
  have hp1 : jsParseFloat "1234" = JSNum.num 1234 := by
    rw [jsParseFloat]
    rw [show ("1234" : String).data = ['1', '2', '3', '4'] from rfl]
    rw [jsParseFloat_all_digits (by decide) (by decide)]
    rw [show digitsVal ['1', '2', '3', '4'] = 1234 from by decide]
    norm_num
  have hf1 : formatDisplay "1234" = "1,234" := by
    rw [formatDisplay_of_num hp1, if_neg (by decide), if_neg (by decide)]
    rw [toLocaleString10, round10_eq_self (by rw [Rat.den_ofNat]; exact one_dvd _)]
    rw [renderVal, show findExp ((1234 : ℚ)).den = some 0 from by rw [Rat.den_ofNat]; decide]
    rw [Rat.den_ofNat, Rat.num_ofNat]
    decide
  have hp2 : jsParseFloat "1,234" = JSNum.num 1 := by
    rw [jsParseFloat]
    rw [show ("1,234" : String).data = ['1', ',', '2', '3', '4'] from rfl]
    rw [parseFloatAux]
    rw [show parseSign ['1', ',', '2', '3', '4'] = (false, ['1', ',', '2', '3', '4']) from by
      decide]
    simp only
    rw [show takeDigits ['1', ',', '2', '3', '4'] = (['1'], [',', '2', '3', '4']) from by decide]
    simp only
    rw [show (if ([',', '2', '3', '4'] : List Char).head? = some '.' then
      (takeDigits ([',', '2', '3', '4'] : List Char).tail).1 else ([] : List Char)) = []
      from by decide]
    rw [if_neg (by decide)]
    have d1 : digitsVal ['1'] = 1 := by decide
    have d0 : digitsVal ([] : List Char) = 0 := rfl
    rw [d1, d0]
    norm_num
  have hf2 : formatDisplay "1,234" = "1" := by
    rw [formatDisplay_of_num hp2, if_neg (by decide), if_neg (by decide)]
    rw [toLocaleString10, round10_eq_self (by rw [Rat.den_one]; exact one_dvd _)]
    rw [renderVal, show findExp ((1 : ℚ)).den = some 0 from by rw [Rat.den_one]; decide]
    rw [Rat.den_one, Rat.num_one]
    decide
  rw [hf1, hf2]
  decide

/-- C9 (amended): the display formatter is idempotent on every string
that does not end in a decimal point and whose formatted output contains
no thousands separator (comma); grouping is the only source of
non-idempotence, since a grouped output re-parses only up to its first
comma. -/
theorem formatter_idempotent_no_grouping (x : String)
    (h1 : ¬ (x.data.getLast? = some '.'))
    (h2 : ¬ (',' ∈ (formatDisplay x).data)) :
    formatDisplay (formatDisplay x) = formatDisplay x := by
  cases hp : jsParseFloat x with
  | nan =>
    have hx : formatDisplay x = x := formatDisplay_of_nan hp
    rw [hx]
    exact hx
  | num v =>
    by_cases hb2 : '.' ∈ x.data ∧ x.data.getLast? = some '0'
    · have hx : formatDisplay x = x := by
        rw [formatDisplay_of_num hp, if_neg h1, if_pos hb2]
      rw [hx]
      exact hx
    · have hx : formatDisplay x = toLocaleString10 v := by
        rw [formatDisplay_of_num hp, if_neg h1, if_neg hb2]
      rw [hx] at h2 ⊢
      exact formatDisplay_toLocale_fixed v h2

/-- C9 witness: the display "5" (no trailing point, ungrouped output)
is formatted idempotently. -/
theorem formatter_idempotent_no_grouping_witness :
    formatDisplay (formatDisplay "5") = formatDisplay "5" := by
  have hf : formatDisplay "5" = "5" := by
    rw [formatDisplay_of_num jsParseFloat_lit_five, if_neg (by decide), if_neg (by decide)]
    rw [toLocaleString10, round10_eq_self (by rw [Rat.den_ofNat]; exact one_dvd _)]
    rw [renderVal, show findExp ((5 : ℚ)).den = some 0 from by rw [Rat.den_ofNat]; decide]
    rw [Rat.den_ofNat, Rat.num_ofNat]
    decide
  exact formatter_idempotent_no_grouping "5" (by decide) (by rw [hf]; decide)


end Calculator
